import Mathlib

/-
Verification of the BlockBenjamminGifs BetterDiscord plugin
(src/BlockBenjamminGifs.plugin.js, version 1.1.0).

The development shallowly embeds the plugin's DOM-facing core:
the URL classifier (isGifUrl / isBlocked), the element resolver
(isInGifPicker / getOwnerNode), the scan pipeline (processElement /
processContainer), the embed builder and its reveal click handler
(hideAndEmbed / reveal), and the shared clearing phase of rescan() and
stop() (clearAll).

A document is a flat list of element nodes in document order; each node
carries its tag, class attribute, id attribute, the URL-bearing
attributes read by the plugin, the plugin's dataset markers
(data-btg-done, data-btg-owner-done, data-btg-click-blocked,
data-btg-embed), and the two inline style properties the plugin touches
(display, pointer-events).  Ancestor queries (Element.closest) walk the
parent pointers; querySelectorAll is a filter over the list in document
order.  A thrown DOM exception (appendChild on null) is modelled by
Option: processElement returns none exactly when the JavaScript code
would throw.
-/

namespace BTG

/- ## String primitives: JavaScript includes / startsWith / toLowerCase -/

/-- Character-list version of JavaScript String.prototype.startsWith. -/
def startsWithL : List Char → List Char → Bool
  | _, [] => true
  | [], _ :: _ => false
  | a :: as, b :: bs => a == b && startsWithL as bs

/-- Character-list version of JavaScript String.prototype.includes. -/
def containsSub : List Char → List Char → Bool
  | [], n => startsWithL [] n
  | a :: t, n => startsWithL (a :: t) n || containsSub t n

/-- JavaScript str.includes(needle) on Lean strings. -/
def strContains (hay needle : String) : Bool :=
  containsSub hay.data needle.data

/-- JavaScript str.startsWith(needle) on Lean strings. -/
def strStarts (s needle : String) : Bool :=
  startsWithL s.data needle.data

/-- JavaScript str.toLowerCase (ASCII, sufficient for the URLs involved). -/
def lowerStr (s : String) : String :=
  ⟨s.data.map Char.toLower⟩

/- ## Static configuration (source lines 11-23) -/

/-- BLOCKED_WORDS from the source. -/
def BLOCKED_WORDS : List String := ["benjammin"]

/-- GIF_PATTERNS from the source. -/
def GIF_PATTERNS : List String :=
  [".gif", "tenor.com", "giphy.com", "media.discordapp.net",
   "media.tenor.com", "i.imgur.com"]

/-- The two recognized settings keys with their defaults
(blockInPicker default true, caseSensitive default false). -/
structure Settings where
  blockInPicker : Bool
  caseSensitive : Bool
deriving DecidableEq, Repr

/-- Default settings, from the config value fields. -/
def defS : Settings := { blockInPicker := true, caseSensitive := false }

/- ## URL classifier (source lines 88-101) -/

/-- isGifUrl(url): false on absent/empty url, else tests whether the
lower-cased url contains some GIF_PATTERNS entry.  Takes no settings. -/
def isGifUrl (url : Option String) : Bool :=
  match url with
  | none => false
  | some u =>
    if u = "" then false
    else GIF_PATTERNS.any (fun p => strContains (lowerStr u) p)

/-- isBlocked(url): false on absent/empty url, else compares the url
against every BLOCKED_WORDS entry, both lower-cased unless
settings.caseSensitive. -/
def isBlocked (s : Settings) (url : Option String) : Bool :=
  match url with
  | none => false
  | some u =>
    if u = "" then false
    else
      let hay := if s.caseSensitive then u else lowerStr u
      BLOCKED_WORDS.any (fun w =>
        let needle := if s.caseSensitive then w else lowerStr w
        strContains hay needle)

/- ## DOM model

A node is an HTML element with the attributes, dataset markers and inline
style properties the plugin reads or writes.  The document is the list of
its elements in document order; tree structure is given by parent
pointers (parent = none for a root element, matching a null
parentElement). -/

structure Node where
  id : Nat
  parent : Option Nat
  tag : String
  className : String
  idAttr : String
  src : Option String
  currentSrc : Option String
  href : Option String
  origSrc : Option String
  btgDone : Bool
  btgOwnerDone : Bool
  btgClickBlocked : Bool
  btgEmbed : Bool
  display : String
  pointerEvents : String
deriving DecidableEq, Repr

/-- A document: elements in document order. -/
abbrev Doc := List Node

/-- Resolve an element reference (getElementById-like lookup by node id). -/
def lookupN (d : Doc) (i : Nat) : Option Node :=
  d.find? (fun n => n.id == i)

/-- Mutate one element in place (dataset/style assignments). -/
def updNode (d : Doc) (i : Nat) (f : Node → Node) : Doc :=
  d.map (fun n => if n.id == i then f n else n)

/-- Largest node id in the document; fresh ids exceed it. -/
def maxId (d : Doc) : Nat :=
  d.foldr (fun n m => max n.id m) 0

/-- The ids present in the document. -/
def idsOf (d : Doc) : List Nat := d.map (·.id)

/-- Well-formed document: distinct element identities and parent pointers
that point strictly downward in id order (so parent chains terminate, as
they do in a real DOM tree). -/
def WF (d : Doc) : Prop :=
  (idsOf d).Nodup ∧ ∀ n ∈ d, ∀ q, n.parent = some q → q < n.id

/-- Executable check for the parent-pointer component of WF. -/
def parentLtB (n : Node) : Bool :=
  match n.parent with
  | none => true
  | some q => decide (q < n.id)

/- ## Selectors used by the plugin -/

/-- CSS attribute selector [class*=s]: substring match on the class
attribute. -/
def classHas (n : Node) (s : String) : Bool := strContains n.className s

/-- The candidate selector "img, video, a[href]" (source lines 130-131). -/
def isCandidate (n : Node) : Bool :=
  n.tag == "img" || n.tag == "video" || (n.tag == "a" && n.href.isSome)

/-- Selector [class*=imageWrapper], [class*=embedMedia] used by the hide
paths (source lines 163 and 176). -/
def wrapSel (n : Node) : Bool :=
  classHas n "imageWrapper" || classHas n "embedMedia"

/-- Selector [class*=imageWrapper], [class*=gifFavorite],
[class*=embedMedia] used by the rescan/stop restore loops (source lines
261 and 399). -/
def stopWrapSel (n : Node) : Bool :=
  classHas n "imageWrapper" || classHas n "gifFavorite" || classHas n "embedMedia"

/-- Selector [id^=message-accessories]. -/
def accSel (n : Node) : Bool := strStarts n.idAttr "message-accessories"

/- ## Ancestor queries (Element.closest) -/

/-- One step bounded walk up the parent chain looking for a match;
Element.closest starts at the element itself.  The fuel i+1 always
suffices on a WF document because parent ids strictly decrease. -/
def closestAux (d : Doc) (p : Node → Bool) : Nat → Nat → Option Nat
  | 0, _ => none
  | fuel + 1, i =>
    match lookupN d i with
    | none => none
    | some n =>
      if p n then some i
      else
        match n.parent with
        | none => none
        | some q => closestAux d p fuel q

/-- el.closest(sel): nearest ancestor-or-self matching the predicate. -/
def closest (d : Doc) (p : Node → Bool) (i : Nat) : Option Nat :=
  closestAux d p (i + 1) i

/-- el.parentElement. -/
def parentOf (d : Doc) (i : Nat) : Option Nat :=
  match lookupN d i with
  | some n => n.parent
  | none => none

/-- JavaScript a ?? b on element references. -/
def ofirst (a b : Option Nat) : Option Nat :=
  match a with
  | some x => some x
  | none => b

/- ## Element resolver (source lines 103-122) -/

/-- isInGifPicker(el): an ancestor matches results__, gifPicker or
categoryList. -/
def isInGifPicker (d : Doc) (i : Nat) : Bool :=
  (closest d (fun n => classHas n "results__") i).isSome ||
  (closest d (fun n => classHas n "gifPicker") i).isSome ||
  (closest d (fun n => classHas n "categoryList") i).isSome

/-- getOwnerNode(el, inPicker), with the source's ?? fallback chains. -/
def getOwnerNode (d : Doc) (i : Nat) (inPicker : Bool) : Option Nat :=
  if inPicker then
    ofirst (closest d (fun n => classHas n "result__") i) (parentOf d i)
  else
    ofirst (closest d (fun n => classHas n "imageWrapper") i)
      (ofirst (closest d (fun n => classHas n "embedWrapper") i)
        (ofirst (closest d (fun n => n.tag == "article") i)
          (ofirst (closest d accSel i) (parentOf d i))))

/- ## URL gathering (source lines 139-147) -/

/-- Order-preserving deduplication, as the Set spread in the source. -/
def dedupAux : List String → List String → List String
  | _, [] => []
  | seen, x :: xs =>
    if x ∈ seen then dedupAux seen xs else x :: dedupAux (x :: seen) xs

def dedupL (l : List String) : List String := dedupAux [] l

/-- The candidate's associated URLs: src, currentSrc, href,
data-original-src and the href of the nearest enclosing anchor, with
falsy entries removed and duplicates dropped. -/
def urlsOf (d : Doc) (i : Nat) : List String :=
  match lookupN d i with
  | none => []
  | some n =>
    dedupL ((([n.src, n.currentSrc, n.href, n.origSrc,
        (closest d (fun m => m.tag == "a") i).bind
          (fun j => (lookupN d j).bind (fun m => m.href))].filterMap
            (fun x => x)).filter (fun u => u ≠ "")))

/- ## Embed builder (source lines 173-252) -/

def markDoneF (n : Node) : Node := { n with btgDone := true }

def hideF (n : Node) : Node := { n with display := "none" }

def markOwnerF (n : Node) : Node := { n with btgOwnerDone := true }

def clickBlockF (n : Node) : Node :=
  { n with btgClickBlocked := true, pointerEvents := "none" }

/-- The placeholder container div: data-btg-embed set, class btg-compact
in picker mode, appended as a child of the insertion target.  Its inner
markup (svg, title, description, toggle) contains no img/video/anchor,
so it is modelled as a single leaf element. -/
def mkEmbed (i : Nat) (parentId : Nat) (inPicker : Bool) : Node :=
  { id := i, parent := some parentId, tag := "div",
    className := if inPicker then "btg-compact" else "", idAttr := "",
    src := none, currentSrc := none, href := none, origSrc := none,
    btgDone := false, btgOwnerDone := false, btgClickBlocked := false,
    btgEmbed := true, display := "", pointerEvents := "" }

/-- The element whose display the plugin suppresses for a candidate: the
candidate itself in the picker, else the nearest
imageWrapper/embedMedia ancestor falling back to the candidate (source
lines 162-164 and 174-176 use the same expression). -/
def wrapperOf (d : Doc) (el : Nat) (inPicker : Bool) : Nat :=
  if inPicker then el
  else
    match closest d wrapSel el with
    | some w => w
    | none => el

/-- The mutations hideAndEmbed performs before appendChild: suppress the
wrapper's display and, in picker mode with an owner, mark the owner
click-blocked with pointer interaction suppressed. -/
def hideClickUpd (d : Doc) (el : Nat) (inPicker : Bool) (owner : Option Nat) : Doc :=
  if inPicker then
    match owner with
    | some o => updNode (updNode d (wrapperOf d el inPicker) hideF) o clickBlockF
    | none => updNode d (wrapperOf d el inPicker) hideF
  else updNode d (wrapperOf d el inPicker) hideF

/-- hideAndEmbed(el, inPicker, owner): hides the wrapper, suppresses
pointer interaction on a picker owner, and appends the placeholder to
the insertion target.  Returns none when insertTarget is null and the
appendChild call would throw a TypeError. -/
def hideAndEmbed (d : Doc) (el : Nat) (inPicker : Bool) (owner : Option Nat) :
    Option Doc :=
  match (if inPicker then ofirst owner (parentOf d el)
         else ofirst (closest d accSel (wrapperOf d el inPicker))
                 (parentOf d (wrapperOf d el inPicker))) with
  | none => none
  | some t =>
    some (hideClickUpd d el inPicker owner ++
      [mkEmbed (maxId (hideClickUpd d el inPicker owner) + 1) t inPicker])

/- ## Scan pipeline (source lines 126-171) -/

/-- processElement(el): the per-candidate pipeline.  none models the
TypeError thrown inside hideAndEmbed.  The source's inPicker and owner
locals are inlined (isInGifPicker is a pure query, and the marker write
to el does not affect it). -/
def processElement (s : Settings) (d : Doc) (el : Nat) : Option Doc :=
  match lookupN d el with
  | none => some d
  | some n =>
    if n.btgDone then some d
    else if !(urlsOf d el).any (fun u => isGifUrl (some u)) then some d
    else if !(urlsOf d el).any (fun u => isBlocked s (some u)) then some d
    else if isInGifPicker d el && !s.blockInPicker then some d
    else
      match getOwnerNode (updNode d el markDoneF) el (isInGifPicker d el) with
      | some o =>
        if (match lookupN (updNode d el markDoneF) o with
            | some m => m.btgOwnerDone
            | none => false) then
          some (updNode (updNode d el markDoneF)
            (wrapperOf (updNode d el markDoneF) el (isInGifPicker d el)) hideF)
        else hideAndEmbed (updNode (updNode d el markDoneF) o markOwnerF) el
          (isInGifPicker d el) (some o)
      | none => hideAndEmbed (updNode d el markDoneF) el (isInGifPicker d el) none

/-- Is node n a strict descendant of the element with id c (its parent
chain reaches c)? -/
def descOf (d : Doc) (c : Nat) (n : Node) : Bool :=
  match n.parent with
  | none => false
  | some q => (closest d (fun m => m.id == c) q).isSome

/-- The scan's candidate set: the container itself when it matches
"img, video, a[href]", then every matching descendant in document order
(the Set in the source preserves insertion order and cannot repeat the
container). -/
def candidatesOf (d : Doc) (c : Nat) : List Nat :=
  (match lookupN d c with
   | some cn => if isCandidate cn then [c] else []
   | none => []) ++
  (d.filter (fun n => isCandidate n && descOf d c n)).map (·.id)

/-- processContainer(container): no-op on a non-element, else feeds each
candidate through processElement in order.  A thrown exception aborts
the whole scan (none). -/
def processContainer (s : Settings) (d : Doc) (c : Nat) : Option Doc :=
  match lookupN d c with
  | none => some d
  | some _ => (candidatesOf d c).foldlM (fun acc el => processElement s acc el) d

/- ## Reveal click handler (source lines 231-243) -/

/-- Restore a suppressed display (wrapper.style.display set back to
empty). -/
def unhideF (n : Node) : Node := { n with display := "" }

/-- Clear the owner-processed marker. -/
def unmarkOwnerF (n : Node) : Node := { n with btgOwnerDone := false }

/-- Restore pointer interaction and clear the click-blocked marker. -/
def unclickF (n : Node) : Node :=
  { n with pointerEvents := "", btgClickBlocked := false }

/-- First phase of the reveal listener: restore the wrapper's display,
then the display of every processed descendant of the wrapper (the
querySelectorAll snapshot is taken after the wrapper restore). -/
def revealDescs (d : Doc) (w : Nat) : Doc :=
  (((updNode d w unhideF).filter
      (fun n => n.btgDone && descOf (updNode d w unhideF) w n)).map (·.id)).foldl
    (fun acc i => updNode acc i unhideF) (updNode d w unhideF)

/-- Second phase: clear the owner-processed marker when an owner exists. -/
def revealPre (d : Doc) (w : Nat) (o : Option Nat) : Doc :=
  match o with
  | some oo => updNode (revealDescs d w) oo unmarkOwnerF
  | none => revealDescs d w

/-- The body of the reveal toggle's click listener: restore the wrapper's
display and that of its processed descendants, clear the owner marker,
remove the placeholder, and in picker mode restore pointer interaction
and clear the click-blocked marker. -/
def reveal (d : Doc) (w : Nat) (o : Option Nat) (cont : Nat) (pk : Bool) : Doc :=
  if pk then
    match o with
    | some oo =>
      updNode ((revealPre d w o).filter (fun n => n.id ≠ cont)) oo unclickF
    | none => (revealPre d w o).filter (fun n => n.id ≠ cont)
  else (revealPre d w o).filter (fun n => n.id ≠ cont)

/-- A bubbling click event: all the model needs is the propagation flag. -/
structure ClickEvent where
  stopped : Bool
deriving DecidableEq, Repr

/-- The reveal listener as an event handler: it calls e.stopPropagation()
and performs the reveal mutations. -/
def revealHandler (w : Nat) (o : Option Nat) (cont : Nat) (pk : Bool) :
    Doc × ClickEvent → Doc × ClickEvent :=
  fun p => (reveal p.1 w o cont pk, { stopped := true })

/-- Event dispatch along the propagation path (target handler first, then
outer handlers): a handler runs only while propagation has not been
stopped. -/
def runHandlers : List (Doc × ClickEvent → Doc × ClickEvent) →
    Doc × ClickEvent → Doc × ClickEvent
  | [], p => p
  | h :: t, p => if p.2.stopped then runHandlers t p else runHandlers t (h p)

/- ## Clearing phase shared by rescan() and stop() (source lines 257-270
and 395-408: identical code) -/

/-- clearAll: remove every placeholder, then for each processed element
restore its display, drop its marker and restore the display of its
nearest imageWrapper/gifFavorite/embedMedia ancestor, then drop all
owner markers, then restore pointer interaction on click-blocked
elements. -/
def clearAll (d : Doc) : Doc :=
  let d0 := d.filter (fun n => n.btgEmbed = false)
  let doneIds := (d0.filter (fun n => n.btgDone)).map (·.id)
  let d1 := doneIds.foldl (fun acc i =>
    let a1 := updNode acc i (fun n => { n with display := "", btgDone := false })
    match closest a1 stopWrapSel i with
    | some w => updNode a1 w (fun n => { n with display := "" })
    | none => a1) d0
  let ownerIds := (d1.filter (fun n => n.btgOwnerDone)).map (·.id)
  let d2 := ownerIds.foldl (fun acc i =>
    updNode acc i (fun n => { n with btgOwnerDone := false })) d1
  let clickIds := (d2.filter (fun n => n.btgClickBlocked)).map (·.id)
  clickIds.foldl (fun acc i =>
    updNode acc i (fun n => { n with pointerEvents := "", btgClickBlocked := false })) d2

/-- rescan(): the clearing phase followed by a full scan from the
document body. -/
def rescan (s : Settings) (d : Doc) (body : Nat) : Option Doc :=
  processContainer s (clearAll d) body

/-- stop(): disconnects the observer, runs the identical clearing code,
and removes the injected stylesheet; only the document effect is
modelled. -/
def stopOp (d : Doc) : Doc := clearAll d

/- ## Concrete documents for witnesses and counterexamples -/

/-- Build a plain element with no plugin markers. -/
def mkEl (i : Nat) (p : Option Nat) (tag cls idA : String) (src : Option String) :
    Node :=
  { id := i, parent := p, tag := tag, className := cls, idAttr := idA,
    src := src, currentSrc := none, href := none, origSrc := none,
    btgDone := false, btgOwnerDone := false, btgClickBlocked := false,
    btgEmbed := false, display := "", pointerEvents := "" }

/-- The spec's message scenario: a blocked tenor GIF image inside an
image wrapper inside a message-accessories container. -/
def dMsg : Doc :=
  [mkEl 0 none "div" "" "" none,
   mkEl 1 (some 0) "div" "" "message-accessories-42" none,
   mkEl 2 (some 1) "div" "imageWrapper_ab12" "" none,
   mkEl 3 (some 2) "img" "" "" (some "https://media.tenor.com/benjammin-dance.gif")]

/-- The message scenario after one full scan. -/
def dMsgScanned : Doc := (processContainer defS dMsg 0).getD []

/-- A document where a gifFavorite element sits strictly between a
blocked image and its imageWrapper ancestor. -/
def dC2 : Doc :=
  [mkEl 0 none "div" "" "" none,
   mkEl 1 (some 0) "div" "imageWrapper_y" "" none,
   mkEl 2 (some 1) "div" "gifFavorite_x" "" none,
   mkEl 3 (some 2) "img" "" "" (some "https://media.tenor.com/benjammin.gif")]

/-- A lone parentless blocked image (no wrapper, owner, or insertion
container anywhere). -/
def dC9 : Doc := [mkEl 0 none "img" "" "" (some "benjammin.gif")]

/-- A picker surface with a result tile holding a blocked GIF. -/
def dPick : Doc :=
  [mkEl 0 none "div" "gifPicker_z" "" none,
   mkEl 1 (some 0) "div" "result__99" "" none,
   mkEl 2 (some 1) "img" "" "" (some "https://tenor.com/benjammin.gif")]

/-- An unprocessed blocked image whose owner unit already carries the
owner-processed marker. -/
def dOwn : Doc :=
  [mkEl 0 none "div" "" "" none,
   { mkEl 1 (some 0) "div" "imageWrapper_q" "" none with btgOwnerDone := true },
   mkEl 2 (some 1) "img" "" "" (some "https://x/benjammin.gif")]

/- ## Analysis definitions (observables over the embedded operations) -/

/-- The insertion target hideAndEmbed resolves for a candidate (source
lines 174-180), computed before any mutation: in the picker the owner
falling back to the candidate's parent, otherwise the wrapper's nearest
message-accessories ancestor falling back to the wrapper's parent. -/
def insTargetOf (d : Doc) (el : Nat) : Option Nat :=
  if isInGifPicker d el then ofirst (getOwnerNode d el true) (parentOf d el)
  else
    ofirst (closest d accSel (wrapperOf d el false))
      (parentOf d (wrapperOf d el false))

/-- The pipeline's early-return conditions for a candidate: already
processed, no GIF-like URL, no blocked URL, or in the picker with
blocking disabled (plus the non-element guard). -/
def skipsB (s : Settings) (d : Doc) (el : Nat) : Bool :=
  match lookupN d el with
  | none => true
  | some n =>
    n.btgDone ||
    !(urlsOf d el).any (fun u => isGifUrl (some u)) ||
    !(urlsOf d el).any (fun u => isBlocked s (some u)) ||
    (isInGifPicker d el && !s.blockInPicker)

/-- Two nodes agree on every field the plugin never mutates (identity,
tree position, tag, attributes); the scan only changes markers and
styles. -/
structure StaticEq (a b : Node) : Prop where
  idE : a.id = b.id
  parentE : a.parent = b.parent
  tagE : a.tag = b.tag
  classE : a.className = b.className
  idAttrE : a.idAttr = b.idAttr
  srcE : a.src = b.src
  curE : a.currentSrc = b.currentSrc
  hrefE : a.href = b.href
  origE : a.origSrc = b.origSrc

/-- Lifting of StaticEq to lookup results. -/
def optSE : Option Node → Option Node → Prop
  | none, none => True
  | some a, some b => StaticEq a b
  | _, _ => False

/-- d' extends d: the original elements in order with only dynamic
(marker/style) changes, followed by newly appended elements that are
never scan candidates and carry fresh ids. -/
def Ext (d d' : Doc) : Prop :=
  ∃ u t, d' = u ++ t ∧ List.Forall₂ StaticEq d u ∧
    ∀ n ∈ t, isCandidate n = false ∧ maxId d < n.id

/-- Processed markers survive from d to d': a mark visible at some id in
d is still visible in d'. -/
def DoneMono (d d' : Doc) : Prop :=
  ∀ i, (lookupN d i).map (fun n => n.btgDone) = some true →
    (lookupN d' i).map (fun n => n.btgDone) = some true

/-- Everything the ancestor queries need to transfer from d to d':
terminating parent chains, lookup agreement on every non-excluded id,
and parent edges that never enter the excluded set. -/
def Agrees (d d' : Doc) (bad : Nat → Prop) : Prop :=
  (∀ n ∈ d, ∀ q, n.parent = some q → q < n.id) ∧
  (∀ i, i ≤ maxId d → ¬ bad i → optSE (lookupN d i) (lookupN d' i)) ∧
  (∀ n ∈ d, ∀ q, n.parent = some q → ¬ bad q)

/- ## Theorems.  String characterizations first -/

theorem startsWithL_iff (n : List Char) : ∀ h : List Char,
    startsWithL h n = true ↔ ∃ r, h = n ++ r := by
  induction n with
  | nil =>
    intro h
    simp [startsWithL]
  | cons b bs ih =>
    intro h
    cases h with
    | nil =>
      simp [startsWithL]
    | cons a as =>
      simp only [startsWithL, Bool.and_eq_true, beq_iff_eq, ih as, List.cons_append,
        List.cons.injEq]
      constructor
      · rintro ⟨rfl, r, rfl⟩
        exact ⟨r, rfl, rfl⟩
      · rintro ⟨r, rfl, rfl⟩
        exact ⟨rfl, r, rfl⟩

theorem containsSub_iff (n : List Char) : ∀ h : List Char,
    containsSub h n = true ↔ ∃ p q, h = p ++ (n ++ q) := by
  intro h
  induction h with
  | nil =>
    simp only [containsSub, startsWithL_iff]
    constructor
    · rintro ⟨r, hr⟩
      exact ⟨[], r, hr⟩
    · rintro ⟨p, q, hpq⟩
      rcases List.append_eq_nil.mp hpq.symm with ⟨rfl, h2⟩
      exact ⟨q, by simpa using hpq⟩
  | cons a t ih =>
    simp only [containsSub, Bool.or_eq_true, startsWithL_iff, ih]
    constructor
    · rintro (⟨r, hr⟩ | ⟨p, q, hpq⟩)
      · exact ⟨[], r, by simpa using hr⟩
      · exact ⟨a :: p, q, by simp [hpq]⟩
    · rintro ⟨p, q, hpq⟩
      cases p with
      | nil => exact Or.inl ⟨q, by simpa using hpq⟩
      | cons x xs =>
        right
        rcases List.cons.injEq .. ▸ hpq with ⟨rfl, htl⟩
        exact ⟨xs, q, by simpa using hpq⟩

theorem strContains_iff (hay needle : String) :
    strContains hay needle = true ↔ ∃ p q, hay.data = p ++ (needle.data ++ q) :=
  containsSub_iff needle.data hay.data

/-- C7: isGifUrl returns true iff the lower-cased URL contains one of the
GIF_PATTERNS substrings, and false for an absent or empty URL.  The
definition takes no Settings argument, so the result cannot depend on the
caseSensitive setting. -/
theorem isGifUrl_correct :
    isGifUrl none = false ∧ isGifUrl (some "") = false ∧
    ∀ u : String, isGifUrl (some u) = true ↔
      u ≠ "" ∧ ∃ p ∈ GIF_PATTERNS, ∃ l r, (lowerStr u).data = l ++ (p.data ++ r) := by
  refine ⟨rfl, rfl, fun u => ?_⟩
  unfold isGifUrl
  by_cases hu : u = ""
  · simp [hu]
  · simp only [hu, if_false, List.any_eq_true, ne_eq, not_false_iff, true_and]
    constructor
    · rintro ⟨p, hp, hc⟩
      exact ⟨p, hp, (strContains_iff _ _).mp hc⟩
    · rintro ⟨p, hp, l, r, hr⟩
      exact ⟨p, hp, (strContains_iff _ _).mpr ⟨l, r, hr⟩⟩

/-- C4: isBlocked returns true iff the URL contains some BLOCKED_WORDS
entry as a substring, both sides lower-cased when caseSensitive is false
and verbatim when it is true; it returns false for an absent or empty
URL; and with caseSensitive on, a URL containing only capitalized
Benjammin is not blocked. -/
theorem isBlocked_correct :
    (∀ s : Settings, isBlocked s none = false ∧ isBlocked s (some "") = false) ∧
    (∀ (s : Settings) (u : String), isBlocked s (some u) = true ↔
      u ≠ "" ∧ ∃ w ∈ BLOCKED_WORDS, ∃ p q,
        (if s.caseSensitive then u else lowerStr u).data =
          p ++ ((if s.caseSensitive then w else lowerStr w).data ++ q)) ∧
    isBlocked { blockInPicker := true, caseSensitive := true }
      (some "https://media.tenor.com/view/Benjammin-dance.gif") = false := by
  refine ⟨fun s => ⟨rfl, rfl⟩, fun s u => ?_, by decide⟩
  unfold isBlocked
  by_cases hu : u = ""
  · simp [hu]
  · simp only [hu, if_false, List.any_eq_true, ne_eq, not_false_iff, true_and]
    constructor
    · rintro ⟨w, hw, hc⟩
      exact ⟨w, hw, (strContains_iff _ _).mp hc⟩
    · rintro ⟨w, hw, p, q, hr⟩
      exact ⟨w, hw, (strContains_iff _ _).mpr ⟨p, q, hr⟩⟩

/- ## C5: picker candidates are skipped unmarked when blockInPicker is off -/

/-- C5: when a candidate sits in a picker surface and blockInPicker is
false, processElement leaves the document completely unchanged: no
marker is set, nothing is hidden, and no embed is created, so a later
rescan can re-evaluate the element after the setting flips. -/
theorem C5_picker_off_skips_unmarked :
    ∀ (s : Settings) (d : Doc) (el : Nat),
      isInGifPicker d el = true → s.blockInPicker = false →
      processElement s d el = some d := by
  intro s d el hpick hbip
  unfold processElement
  cases hl : lookupN d el with
  | none => rfl
  | some n =>
    by_cases hdone : n.btgDone
    · simp [hdone]
    · by_cases hgif : (urlsOf d el).any (fun u => isGifUrl (some u))
      · by_cases hblk : (urlsOf d el).any (fun u => isBlocked s (some u))
        · simp [hdone, hgif, hblk, hpick, hbip]
        · simp [hdone, hgif, hblk]
      · simp [hdone, hgif]

/-- Witness for C5: the concrete picker tile scenario stays untouched
with blockInPicker off. -/
theorem C5_picker_off_skips_unmarked_witness :
    processElement { blockInPicker := false, caseSensitive := false } dPick 2 =
      some dPick :=
  C5_picker_off_skips_unmarked { blockInPicker := false, caseSensitive := false }
    dPick 2 (by decide) rfl

/- ## C8: the reveal control swallows the click -/

theorem runHandlers_stopped :
    ∀ (hs : List (Doc × ClickEvent → Doc × ClickEvent)) (p : Doc × ClickEvent),
      p.2.stopped = true → runHandlers hs p = p := by
  intro hs
  induction hs with
  | nil => intro p _; rfl
  | cons h t ih =>
    intro p hp
    unfold runHandlers
    simp [hp, ih p hp]

/-- C8: dispatching a click whose propagation path starts at the reveal
control runs only the plugin's reveal listener; because that listener
calls stopPropagation, no outer handler (picker tile selection, image
opening, or any other) ever runs, whatever those handlers are. -/
theorem C8_reveal_stops_propagation :
    ∀ (hs : List (Doc × ClickEvent → Doc × ClickEvent)) (d : Doc) (w : Nat)
      (o : Option Nat) (cont : Nat) (pk : Bool),
      runHandlers (revealHandler w o cont pk :: hs) (d, { stopped := false }) =
        (reveal d w o cont pk, { stopped := true }) := by
  intro hs d w o cont pk
  unfold runHandlers
  simp only [Bool.false_eq_true, if_false]
  exact runHandlers_stopped hs _ rfl

/- ## C2: the clearing phase misses wrappers hidden past a gifFavorite -/

/-- C2 evaluation: on dC2 the scan suppresses the display of the
imageWrapper element (id 1); the clearing code of stop() and rescan()
does remove every placeholder and every marker, but its restore selector
(imageWrapper, gifFavorite, embedMedia) finds the strictly nearer
gifFavorite element instead of the wrapper the hide path (imageWrapper,
embedMedia) actually hid, so after stop() the wrapper is still
display:none, contradicting the claimed zero-suppressed-displays
postcondition. -/
theorem C2_stop_leaves_suppressed_display :
    (lookupN dC2 1).map (fun n => n.display) = some "" ∧
    (processContainer defS dC2 0).map
      (fun d => (lookupN d 1).map (fun n => n.display)) = some (some "none") ∧
    (processContainer defS dC2 0).map
      (fun d => (lookupN (stopOp d) 1).map (fun n => n.display)) =
        some (some "none") ∧
    (processContainer defS dC2 0).map
      (fun d => ((stopOp d).filter
        (fun n => n.btgEmbed || n.btgDone || n.btgOwnerDone || n.btgClickBlocked)).length) =
      some 0 := by
  refine ⟨by decide, by decide, by decide, by decide⟩

/- ## C9 counterexample: the pipeline can throw -/

/-- C9 counterexample: scanning a lone parentless blocked image throws
(insertTarget is null and appendChild raises a TypeError), refuting the
claim that the scan pipeline never raises an error on any input
element. -/
theorem C9_counterexample_scan_throws :
    processContainer defS dC9 0 = none := by decide

/- ## Basic lookup and update lemmas -/

theorem lookupN_mem_id {d : Doc} {i : Nat} {n : Node} (h : lookupN d i = some n) :
    n ∈ d ∧ n.id = i := by
  unfold lookupN at h
  exact ⟨List.mem_of_find?_eq_some h, by simpa using List.find?_some h⟩

theorem lookupN_updNode (d : Doc) (i j : Nat) (f : Node → Node)
    (hf : ∀ n, (f n).id = n.id) :
    lookupN (updNode d i f) j =
      (lookupN d j).map (fun n => if n.id == i then f n else n) := by
  unfold lookupN updNode
  rw [List.find?_map]
  have hp : ((fun n : Node => n.id == j) ∘ fun n => if n.id == i then f n else n) =
      (fun n : Node => n.id == j) := by
    funext n
    simp only [Function.comp_apply]
    by_cases h : n.id == i
    · simp [h, hf]
    · simp [h]
  rw [hp]

theorem length_updNode (d : Doc) (i : Nat) (f : Node → Node) :
    (updNode d i f).length = d.length :=
  List.length_map ..

theorem filter_embed_updNode (d : Doc) (i : Nat) (f : Node → Node)
    (hid : ∀ n, (f n).id = n.id) (hemb : ∀ n, (f n).btgEmbed = n.btgEmbed) :
    ((updNode d i f).filter (fun m => m.btgEmbed)).map (·.id) =
      (d.filter (fun m => m.btgEmbed)).map (·.id) := by
  unfold updNode
  rw [List.filter_map, List.map_map]
  have hq : ((fun m : Node => m.btgEmbed) ∘ fun n => if n.id == i then f n else n) =
      (fun m : Node => m.btgEmbed) := by
    funext n
    simp only [Function.comp_apply]
    by_cases h : n.id == i
    · simp [h, hemb]
    · simp [h]
  have hm : ((fun m : Node => m.id) ∘ fun n => if n.id == i then f n else n) =
      (fun m : Node => m.id) := by
    funext n
    simp only [Function.comp_apply]
    by_cases h : n.id == i
    · simp [h, hid]
    · simp [h]
  rw [hq, hm]

/- ## C6: owner resolution priority order -/

/-- C6: getOwnerNode resolves, in the picker, the nearest result-tile
ancestor falling back to the immediate parent; otherwise the first match
of imageWrapper ancestor, embedWrapper ancestor, article ancestor,
message-accessories ancestor, falling back to the immediate parent —
first match wins.  Repeated-call stability is immediate since the
resolution is a pure function of the document and the element. -/
theorem C6_getOwnerNode_priority :
    ∀ (d : Doc) (el : Nat),
      (∀ w, closest d (fun n => classHas n "result__") el = some w →
        getOwnerNode d el true = some w) ∧
      (closest d (fun n => classHas n "result__") el = none →
        getOwnerNode d el true = parentOf d el) ∧
      (∀ w, closest d (fun n => classHas n "imageWrapper") el = some w →
        getOwnerNode d el false = some w) ∧
      (closest d (fun n => classHas n "imageWrapper") el = none →
        ∀ w, closest d (fun n => classHas n "embedWrapper") el = some w →
        getOwnerNode d el false = some w) ∧
      (closest d (fun n => classHas n "imageWrapper") el = none →
        closest d (fun n => classHas n "embedWrapper") el = none →
        ∀ w, closest d (fun n => n.tag == "article") el = some w →
        getOwnerNode d el false = some w) ∧
      (closest d (fun n => classHas n "imageWrapper") el = none →
        closest d (fun n => classHas n "embedWrapper") el = none →
        closest d (fun n => n.tag == "article") el = none →
        ∀ w, closest d accSel el = some w →
        getOwnerNode d el false = some w) ∧
      (closest d (fun n => classHas n "imageWrapper") el = none →
        closest d (fun n => classHas n "embedWrapper") el = none →
        closest d (fun n => n.tag == "article") el = none →
        closest d accSel el = none →
        getOwnerNode d el false = parentOf d el) := by
  intro d el
  refine ⟨fun w h => ?_, fun h => ?_, fun w h => ?_, fun h1 w h => ?_,
    fun h1 h2 w h => ?_, fun h1 h2 h3 w h => ?_, fun h1 h2 h3 h4 => ?_⟩
  · simp [getOwnerNode, ofirst, h]
  · simp [getOwnerNode, ofirst, h]
  · simp [getOwnerNode, ofirst, h]
  · simp [getOwnerNode, ofirst, h1, h]
  · simp [getOwnerNode, ofirst, h1, h2, h]
  · simp [getOwnerNode, ofirst, h1, h2, h3, h]
  · simp [getOwnerNode, ofirst, h1, h2, h3, h4]

/-- Witness for C6: in the message scenario the image's owner is the
imageWrapper ancestor (the first matcher in the priority order). -/
theorem C6_getOwnerNode_priority_witness :
    getOwnerNode dMsg 3 false = some 2 :=
  (C6_getOwnerNode_priority dMsg 3).2.2.1 2 (by decide)

/- ## C1: a marked owner blocks a second embed -/

/-- C1: when processElement reaches a blocked candidate whose resolved
owner already carries the owner-processed marker, the result is exactly
the original document with the candidate marked processed and its
nearest wrapper's display suppressed: the document gains no element, the
set of placeholder embeds is unchanged (no second embed for that owner),
and no display other than that wrapper's changes. -/
theorem C1_owner_marked_hides_only :
    ∀ (s : Settings) (d : Doc) (el : Nat) (o : Nat),
      (lookupN d el).map (fun n => n.btgDone) = some false →
      (urlsOf d el).any (fun u => isGifUrl (some u)) = true →
      (urlsOf d el).any (fun u => isBlocked s (some u)) = true →
      (isInGifPicker d el = true → s.blockInPicker = true) →
      getOwnerNode (updNode d el markDoneF) el (isInGifPicker d el) = some o →
      (lookupN (updNode d el markDoneF) o).map (fun m => m.btgOwnerDone) =
        some true →
      processElement s d el =
        some (updNode (updNode d el markDoneF)
          (wrapperOf (updNode d el markDoneF) el (isInGifPicker d el)) hideF) ∧
      (updNode (updNode d el markDoneF)
        (wrapperOf (updNode d el markDoneF) el (isInGifPicker d el)) hideF).length =
          d.length ∧
      ((updNode (updNode d el markDoneF)
        (wrapperOf (updNode d el markDoneF) el (isInGifPicker d el)) hideF).filter
          (fun m => m.btgEmbed)).map (·.id) =
        (d.filter (fun m => m.btgEmbed)).map (·.id) ∧
      ∀ j, j ≠ wrapperOf (updNode d el markDoneF) el (isInGifPicker d el) →
        (lookupN (updNode (updNode d el markDoneF)
          (wrapperOf (updNode d el markDoneF) el (isInGifPicker d el)) hideF) j).map
            (fun m => m.display) =
          (lookupN d j).map (fun m => m.display) := by
  intro s d el o hdone hgif hblk hpk hown hmark
  cases hl : lookupN d el with
  | none => rw [hl] at hdone; exact absurd hdone (by simp)
  | some n =>
    rw [hl] at hdone
    have hnd : n.btgDone = false := by simpa using hdone
    have hmark' : (match lookupN (updNode d el markDoneF) o with
        | some m => m.btgOwnerDone
        | none => false) = true := by
      cases hm : lookupN (updNode d el markDoneF) o with
      | none => rw [hm] at hmark; exact absurd hmark (by simp)
      | some m => rw [hm] at hmark; simpa using hmark
    constructor
    · unfold processElement
      rw [hl]
      have hcond : (isInGifPicker d el && !s.blockInPicker) = false := by
        cases hp : isInGifPicker d el with
        | false => simp
        | true => simp [hpk hp]
      simp only [hnd, Bool.false_eq_true, if_false, hgif, hblk, Bool.not_true, hcond]
      rw [hown]
      simp [hmark']
    · refine ⟨by rw [length_updNode, length_updNode], ?_, ?_⟩
      · rw [filter_embed_updNode _ _ hideF (fun _ => rfl) (fun _ => rfl),
          filter_embed_updNode _ _ markDoneF (fun _ => rfl) (fun _ => rfl)]
      · intro j hj
        rw [lookupN_updNode _ _ _ hideF (fun _ => rfl),
          lookupN_updNode _ _ _ markDoneF (fun _ => rfl)]
        cases hlj : lookupN d j with
        | none => rfl
        | some m =>
          have hmid : m.id = j := (lookupN_mem_id hlj).2
          have hne : m.id ≠ wrapperOf (updNode d el markDoneF) el (isInGifPicker d el) := by
            rw [hmid]; exact hj
          by_cases he : m.id = el
          · have hne2 : el ≠ wrapperOf (updNode d el markDoneF) el (isInGifPicker d el) :=
              he ▸ hne
            simp [he, hne2, markDoneF]
          · simp [he, hne]

/-- Witness for C1: a blocked image under an already-marked imageWrapper
owner only gets hidden; no second placeholder appears. -/
theorem C1_owner_marked_hides_only_witness :
    processElement defS dOwn 2 =
      some (updNode (updNode dOwn 2 markDoneF)
        (wrapperOf (updNode dOwn 2 markDoneF) 2 (isInGifPicker dOwn 2)) hideF) :=
  (C1_owner_marked_hides_only defS dOwn 2 1 (by decide) (by decide) (by decide)
    (by decide) (by decide) (by decide)).1

/- ## Static-equality toolkit -/

theorem StaticEq.selfEq (n : Node) : StaticEq n n :=
  ⟨Eq.refl _, Eq.refl _, Eq.refl _, Eq.refl _, Eq.refl _, Eq.refl _, Eq.refl _,
   Eq.refl _, Eq.refl _⟩

theorem StaticEq.comp {a b c : Node} (h1 : StaticEq a b) (h2 : StaticEq b c) :
    StaticEq a c :=
  ⟨h1.idE.trans h2.idE, h1.parentE.trans h2.parentE, h1.tagE.trans h2.tagE,
   h1.classE.trans h2.classE, h1.idAttrE.trans h2.idAttrE, h1.srcE.trans h2.srcE,
   h1.curE.trans h2.curE, h1.hrefE.trans h2.hrefE, h1.origE.trans h2.origE⟩

theorem optSE_trans : ∀ {x y z : Option Node}, optSE x y → optSE y z → optSE x z
  | none, none, none, _, _ => trivial
  | some _, some _, some _, h1, h2 => StaticEq.comp h1 h2
  | none, some _, _, h1, _ => h1.elim
  | some _, none, _, h1, _ => h1.elim
  | none, none, some _, _, h2 => h2.elim
  | some _, some _, none, _, h2 => h2.elim

theorem isCandidate_static {a b : Node} (h : StaticEq a b) :
    isCandidate a = isCandidate b := by
  unfold isCandidate
  rw [h.tagE, h.hrefE]

theorem classHas_static {a b : Node} (h : StaticEq a b) (s : String) :
    classHas a s = classHas b s := by
  unfold classHas
  rw [h.classE]

/- ## maxId lemmas -/

theorem maxId_cons (a : Node) (l : Doc) : maxId (a :: l) = max a.id (maxId l) := rfl

theorem le_maxId : ∀ {d : Doc} {n : Node}, n ∈ d → n.id ≤ maxId d := by
  intro d
  induction d with
  | nil => intro n h; cases h
  | cons a l ih =>
    intro n h
    rw [maxId_cons]
    rcases List.mem_cons.mp h with rfl | h2
    · exact le_max_left ..
    · exact le_trans (ih h2) (le_max_right ..)

theorem maxId_append (u t : Doc) : maxId (u ++ t) = max (maxId u) (maxId t) := by
  induction u with
  | nil => simp [maxId]
  | cons a l ih =>
    rw [List.cons_append, maxId_cons, maxId_cons, ih]
    exact (max_assoc ..).symm

theorem maxId_updNode (d : Doc) (i : Nat) (f : Node → Node)
    (hid : ∀ n, (f n).id = n.id) : maxId (updNode d i f) = maxId d := by
  induction d with
  | nil => rfl
  | cons a l ih =>
    unfold updNode at ih ⊢
    rw [List.map_cons, maxId_cons, maxId_cons, ih]
    by_cases h : a.id == i
    · rw [if_pos h, hid a]
    · rw [if_neg h]

theorem maxId_forall₂ : ∀ {d u : Doc}, List.Forall₂ StaticEq d u → maxId u = maxId d := by
  intro d u h
  induction h with
  | nil => rfl
  | cons h1 _ ih =>
    rw [maxId_cons, maxId_cons, ih, h1.idE]

/- ## Ext toolkit -/

theorem forall₂_static_self (d : Doc) : List.Forall₂ StaticEq d d :=
  List.forall₂_same.mpr (fun x _ => StaticEq.selfEq x)

theorem ext_refl (d : Doc) : Ext d d :=
  ⟨d, [], by simp, forall₂_static_self d, by simp⟩

theorem forall₂_map_self {d : Doc} {g : Node → Node}
    (h : ∀ n ∈ d, StaticEq n (g n)) : List.Forall₂ StaticEq d (d.map g) := by
  induction d with
  | nil => exact List.Forall₂.nil
  | cons a l ih =>
    rw [List.map_cons]
    exact List.Forall₂.cons (h a (by simp))
      (ih (fun n hn => h n (List.mem_cons_of_mem a hn)))

theorem ext_updNode (d : Doc) (i : Nat) (f : Node → Node)
    (hstat : ∀ n, StaticEq n (f n)) : Ext d (updNode d i f) := by
  refine ⟨updNode d i f, [], by simp, ?_, by simp⟩
  unfold updNode
  refine forall₂_map_self (fun n _ => ?_)
  by_cases h : n.id == i
  · rw [if_pos h]; exact hstat n
  · rw [if_neg h]; exact StaticEq.selfEq n

theorem ext_append (d : Doc) (e : Node) (hc : isCandidate e = false)
    (hi : maxId d < e.id) : Ext d (d ++ [e]) := by
  refine ⟨d, [e], rfl, forall₂_static_self d, ?_⟩
  intro n hn
  rw [List.mem_singleton] at hn
  subst hn
  exact ⟨hc, hi⟩

theorem forall₂_mem_right : ∀ {d u : Doc}, List.Forall₂ StaticEq d u →
    ∀ n ∈ u, ∃ m ∈ d, StaticEq m n := by
  intro d u h
  induction h with
  | nil => intro n hn; cases hn
  | cons h1 _ ih =>
    intro n hn
    rcases List.mem_cons.mp hn with rfl | hn2
    · exact ⟨_, by simp, h1⟩
    · rcases ih n hn2 with ⟨m, hm, hsm⟩
      exact ⟨m, List.mem_cons_of_mem _ hm, hsm⟩

theorem forall₂_static_trans : ∀ {d u v : Doc}, List.Forall₂ StaticEq d u →
    List.Forall₂ StaticEq u v → List.Forall₂ StaticEq d v := by
  intro d u v h1
  induction h1 generalizing v with
  | nil =>
    intro h2
    cases h2
    exact List.Forall₂.nil
  | cons ha _ ih =>
    intro h2
    cases h2 with
    | cons hb hrest => exact List.Forall₂.cons (StaticEq.comp ha hb) (ih hrest)

theorem maxId_le_ext {d d' : Doc} (h : Ext d d') : maxId d ≤ maxId d' := by
  rcases h with ⟨u, t, rfl, hu, _⟩
  rw [maxId_append, maxId_forall₂ hu]
  exact le_max_left ..

theorem forall₂_append_split : ∀ {l₁ l₂ u : Doc}, List.Forall₂ StaticEq (l₁ ++ l₂) u →
    ∃ u₁ u₂, u = u₁ ++ u₂ ∧ List.Forall₂ StaticEq l₁ u₁ ∧ List.Forall₂ StaticEq l₂ u₂ := by
  intro l₁
  induction l₁ with
  | nil =>
    intro l₂ u h
    exact ⟨[], u, rfl, List.Forall₂.nil, h⟩
  | cons a t ih =>
    intro l₂ u h
    cases h with
    | cons hab hrest =>
      rcases ih hrest with ⟨u₁, u₂, rfl, h1, h2⟩
      exact ⟨_ :: u₁, u₂, rfl, List.Forall₂.cons hab h1, h2⟩

theorem ext_trans {d d' d'' : Doc} (h1 : Ext d d') (h2 : Ext d' d'') : Ext d d'' := by
  rcases h1 with ⟨u, t, rfl, hu, ht⟩
  rcases h2 with ⟨u'', t'', rfl, hu'', ht''⟩
  rcases forall₂_append_split hu'' with ⟨u₂, t₂, rfl, hu₂, ht₂⟩
  refine ⟨u₂, t₂ ++ t'', by rw [List.append_assoc], forall₂_static_trans hu hu₂, ?_⟩
  intro n hn
  rcases List.mem_append.mp hn with hn1 | hn2
  · rcases forall₂_mem_right ht₂ n hn1 with ⟨m, hm, hsm⟩
    rcases ht m hm with ⟨hmc, hmi⟩
    exact ⟨by rw [← isCandidate_static hsm]; exact hmc, by rw [← hsm.idE]; exact hmi⟩
  · rcases ht'' n hn2 with ⟨hc, hi⟩
    refine ⟨hc, lt_of_le_of_lt ?_ hi⟩
    rw [maxId_append, maxId_forall₂ hu]
    exact le_max_left ..

theorem find_forall₂_app : ∀ {d u : Doc}, List.Forall₂ StaticEq d u →
    ∀ (t : Doc) (i : Nat), (∀ n ∈ t, (n.id == i) = false) →
      optSE (lookupN d i) (lookupN (u ++ t) i) := by
  intro d u h
  induction h with
  | nil =>
    intro t i ht
    have : lookupN t i = none := by
      unfold lookupN
      exact List.find?_eq_none.mpr (fun x hx => by simp [ht x hx])
    simp only [List.nil_append]
    rw [show lookupN ([] : Doc) i = none from rfl, this]
    trivial
  | cons ha hrest ih =>
    intro t i ht
    rename_i a b d₀ u₀
    show optSE (lookupN (a :: d₀) i) (lookupN ((b :: u₀) ++ t) i)
    unfold lookupN
    rw [List.cons_append, List.find?_cons, List.find?_cons]
    by_cases hid : a.id == i
    · have hbd : (b.id == i) = true := by
        rw [← ha.idE]; exact hid
      rw [hid, hbd]
      exact ha
    · have hbd : (b.id == i) = false := by
        rw [← ha.idE]; simpa using hid
      rw [Bool.not_eq_true] at *
      simp only [hid, hbd, cond_false]
      exact ih t i ht

theorem ext_lookAgree {d d' : Doc} (h : Ext d d') :
    ∀ i, i ≤ maxId d → optSE (lookupN d i) (lookupN d' i) := by
  rcases h with ⟨u, t, rfl, hu, ht⟩
  intro i hi
  refine find_forall₂_app hu t i (fun n hn => ?_)
  rcases ht n hn with ⟨_, hgt⟩
  have : n.id ≠ i := by omega
  simpa using this

theorem agrees_of_ext {d d' : Doc} (hwf : WF d) (h : Ext d d') :
    Agrees d d' (fun _ => False) :=
  ⟨hwf.2, fun i hi _ => ext_lookAgree h i hi, fun _ _ _ _ => not_false⟩

/- ## Ancestor-query agreement -/

theorem closestAux_agree {d d' : Doc} {bad : Nat → Prop} (hag : Agrees d d' bad)
    (p : Node → Bool) (hp : ∀ a b, StaticEq a b → p a = p b) :
    ∀ fuel i, i ≤ maxId d → ¬ bad i →
      closestAux d' p fuel i = closestAux d p fuel i := by
  intro fuel
  induction fuel with
  | zero => intro i _ _; rfl
  | succ f ih =>
    intro i hi hb
    unfold closestAux
    have hH := hag.2.1 i hi hb
    cases hd : lookupN d i with
    | none =>
      rw [hd] at hH
      cases hd' : lookupN d' i with
      | none => rfl
      | some b => rw [hd'] at hH; exact hH.elim
    | some n =>
      rw [hd] at hH
      cases hd' : lookupN d' i with
      | none => rw [hd'] at hH; exact hH.elim
      | some b =>
        rw [hd'] at hH
        have hpb : p b = p n := (hp n b hH).symm
        dsimp only
        rw [hpb, ← hH.parentE]
        by_cases hpn : p n
        · simp [hpn]
        · simp only [hpn, Bool.false_eq_true, if_false]
          cases hq : n.parent with
          | none => rfl
          | some q =>
            have hnm := lookupN_mem_id hd
            have hq1 : q < n.id := hag.1 n hnm.1 q hq
            have hq2 : q ≤ maxId d := by
              have := le_maxId hnm.1
              omega
            exact ih q hq2 (hag.2.2 n hnm.1 q hq)

theorem closest_agree {d d' : Doc} {bad : Nat → Prop} (hag : Agrees d d' bad)
    {p : Node → Bool} (hp : ∀ a b, StaticEq a b → p a = p b)
    {i : Nat} (hi : i ≤ maxId d) (hb : ¬ bad i) :
    closest d' p i = closest d p i :=
  closestAux_agree hag p hp (i + 1) i hi hb

theorem closestAux_mem {d : Doc} {p : Node → Bool} :
    ∀ {fuel i j : Nat}, closestAux d p fuel i = some j →
      ∃ n ∈ d, n.id = j ∧ p n = true := by
  intro fuel
  induction fuel with
  | zero => intro i j h; cases h
  | succ f ih =>
    intro i j h
    unfold closestAux at h
    cases hd : lookupN d i with
    | none => rw [hd] at h; cases h
    | some n =>
      rw [hd] at h
      by_cases hpn : p n
      · simp only [hpn, if_true, Option.some.injEq] at h
        subst h
        exact ⟨n, (lookupN_mem_id hd).1, (lookupN_mem_id hd).2, hpn⟩
      · simp only [hpn, Bool.false_eq_true, if_false] at h
        cases hq : n.parent with
        | none => rw [hq] at h; cases h
        | some q => rw [hq] at h; exact ih h

theorem closestAux_inv {d : Doc} {bad : Nat → Prop}
    (hwf : ∀ n ∈ d, ∀ q, n.parent = some q → q < n.id)
    (HB : ∀ n ∈ d, ∀ q, n.parent = some q → ¬ bad q) {p : Node → Bool} :
    ∀ fuel i j, i ≤ maxId d → ¬ bad i → closestAux d p fuel i = some j →
      j ≤ maxId d ∧ ¬ bad j := by
  intro fuel
  induction fuel with
  | zero => intro i j _ _ h; cases h
  | succ f ih =>
    intro i j hi hb h
    unfold closestAux at h
    cases hd : lookupN d i with
    | none => rw [hd] at h; cases h
    | some n =>
      rw [hd] at h
      by_cases hpn : p n
      · simp only [hpn, if_true, Option.some.injEq] at h
        subst h
        exact ⟨hi, hb⟩
      · simp only [hpn, Bool.false_eq_true, if_false] at h
        cases hq : n.parent with
        | none => rw [hq] at h; cases h
        | some q =>
          rw [hq] at h
          have hnm := lookupN_mem_id hd
          have hq1 : q < n.id := hwf n hnm.1 q hq
          have hq2 : q ≤ maxId d := by
            have := le_maxId hnm.1
            omega
          exact ih q j hq2 (HB n hnm.1 q hq) h

theorem closest_le_maxId {d : Doc} {p : Node → Bool} {i j : Nat}
    (h : closest d p i = some j) : j ≤ maxId d := by
  rcases closestAux_mem h with ⟨n, hn, hid, _⟩
  rw [← hid]
  exact le_maxId hn

theorem parentOf_le {d : Doc}
    (hwf : ∀ n ∈ d, ∀ q, n.parent = some q → q < n.id)
    {i q : Nat} (h : parentOf d i = some q) : q ≤ maxId d := by
  unfold parentOf at h
  cases hd : lookupN d i with
  | none => rw [hd] at h; cases h
  | some n =>
    rw [hd] at h
    have hnm := lookupN_mem_id hd
    have := hwf n hnm.1 q h
    have := le_maxId hnm.1
    omega

theorem parentOf_agree {d d' : Doc} {bad : Nat → Prop} (hag : Agrees d d' bad)
    {i : Nat} (hi : i ≤ maxId d) (hb : ¬ bad i) :
    parentOf d' i = parentOf d i := by
  unfold parentOf
  have hH := hag.2.1 i hi hb
  cases h1 : lookupN d i with
  | none =>
    rw [h1] at hH
    cases h2 : lookupN d' i with
    | none => rfl
    | some b => rw [h2] at hH; exact hH.elim
  | some n =>
    rw [h1] at hH
    cases h2 : lookupN d' i with
    | none => rw [h2] at hH; exact hH.elim
    | some b => rw [h2] at hH; exact hH.parentE.symm

theorem picker_agree {d d' : Doc} {bad : Nat → Prop} (hag : Agrees d d' bad)
    {i : Nat} (hi : i ≤ maxId d) (hb : ¬ bad i) :
    isInGifPicker d' i = isInGifPicker d i := by
  unfold isInGifPicker
  rw [closest_agree hag (fun a b hs => by unfold classHas; rw [hs.classE]) hi hb,
    closest_agree hag (fun a b hs => by unfold classHas; rw [hs.classE]) hi hb,
    closest_agree hag (fun a b hs => by unfold classHas; rw [hs.classE]) hi hb]

theorem owner_agree {d d' : Doc} {bad : Nat → Prop} (hag : Agrees d d' bad)
    {i : Nat} (hi : i ≤ maxId d) (hb : ¬ bad i) (pk : Bool) :
    getOwnerNode d' i pk = getOwnerNode d i pk := by
  unfold getOwnerNode
  rw [closest_agree hag (fun a b hs => by unfold classHas; rw [hs.classE]) hi hb,
    closest_agree hag (fun a b hs => by unfold classHas; rw [hs.classE]) hi hb,
    closest_agree hag (fun a b hs => by unfold classHas; rw [hs.classE]) hi hb,
    closest_agree hag (fun a b hs => by rw [hs.tagE]) hi hb,
    closest_agree hag (fun a b hs => by unfold accSel; rw [hs.idAttrE]) hi hb,
    parentOf_agree hag hi hb]

theorem wrapperOf_agree {d d' : Doc} {bad : Nat → Prop} (hag : Agrees d d' bad)
    {i : Nat} (hi : i ≤ maxId d) (hb : ¬ bad i) (pk : Bool) :
    wrapperOf d' i pk = wrapperOf d i pk := by
  unfold wrapperOf
  rw [closest_agree hag
    (fun a b hs => by unfold wrapSel classHas; rw [hs.classE]) hi hb]

theorem urlsOf_agree {d d' : Doc} {bad : Nat → Prop} (hag : Agrees d d' bad)
    {i : Nat} (hi : i ≤ maxId d) (hb : ¬ bad i) :
    urlsOf d' i = urlsOf d i := by
  unfold urlsOf
  have hH := hag.2.1 i hi hb
  cases h1 : lookupN d i with
  | none =>
    rw [h1] at hH
    cases h2 : lookupN d' i with
    | none => rfl
    | some b => rw [h2] at hH; exact hH.elim
  | some n =>
    rw [h1] at hH
    cases h2 : lookupN d' i with
    | none => rw [h2] at hH; exact hH.elim
    | some b =>
      rw [h2] at hH
      have hca : closest d' (fun m => m.tag == "a") i =
          closest d (fun m => m.tag == "a") i :=
        closest_agree hag (fun a b hs => by rw [hs.tagE]) hi hb
      dsimp only
      rw [hca, ← hH.srcE, ← hH.curE, ← hH.hrefE, ← hH.origE]
      cases hc : closest d (fun m => m.tag == "a") i with
      | none => rfl
      | some j =>
        have hj := closestAux_inv hag.1 hag.2.2 (i + 1) i j hi hb hc
        have hHj := hag.2.1 j hj.1 hj.2
        simp only [Option.some_bind]
        cases hj1 : lookupN d j with
        | none =>
          rw [hj1] at hHj
          cases hj2 : lookupN d' j with
          | none => rfl
          | some bb => rw [hj2] at hHj; exact hHj.elim
        | some m =>
          rw [hj1] at hHj
          cases hj2 : lookupN d' j with
          | none => rw [hj2] at hHj; exact hHj.elim
          | some bb =>
            rw [hj2] at hHj
            simp only [Option.some_bind]
            rw [hHj.hrefE]

theorem descOf_agree {d d' : Doc} {bad : Nat → Prop} (hag : Agrees d d' bad)
    {c : Nat} {m n : Node} (hm : m ∈ d) (hsm : StaticEq m n) :
    descOf d' c n = descOf d c m := by
  unfold descOf
  rw [← hsm.parentE]
  cases hq : m.parent with
  | none => rfl
  | some q =>
    have hq1 : q < m.id := hag.1 m hm q hq
    have hq2 : q ≤ maxId d := by
      have := le_maxId hm
      omega
    dsimp only
    rw [closest_agree hag
      (p := fun mm => mm.id == c)
      (fun a b hs => by
        show (a.id == c) = (b.id == c)
        rw [hs.idE]) hq2 (hag.2.2 m hm q hq)]

/- ## Mutator facts -/

theorem markDoneF_static (n : Node) : StaticEq n (markDoneF n) :=
  ⟨rfl, rfl, rfl, rfl, rfl, rfl, rfl, rfl, rfl⟩

theorem hideF_static (n : Node) : StaticEq n (hideF n) :=
  ⟨rfl, rfl, rfl, rfl, rfl, rfl, rfl, rfl, rfl⟩

theorem markOwnerF_static (n : Node) : StaticEq n (markOwnerF n) :=
  ⟨rfl, rfl, rfl, rfl, rfl, rfl, rfl, rfl, rfl⟩

theorem clickBlockF_static (n : Node) : StaticEq n (clickBlockF n) :=
  ⟨rfl, rfl, rfl, rfl, rfl, rfl, rfl, rfl, rfl⟩

theorem mkEmbed_not_candidate (i q : Nat) (b : Bool) :
    isCandidate (mkEmbed i q b) = false := rfl

theorem mkEmbed_id (i q : Nat) (b : Bool) : (mkEmbed i q b).id = i := rfl

/- ## Done-marker preservation -/

theorem doneAt_updNode {d : Doc} {el : Nat} (i : Nat) (f : Node → Node)
    (hid : ∀ n, (f n).id = n.id)
    (hdp : ∀ n, n.btgDone = true → (f n).btgDone = true)
    (h : (lookupN d el).map (fun n => n.btgDone) = some true) :
    (lookupN (updNode d i f) el).map (fun n => n.btgDone) = some true := by
  rw [lookupN_updNode d i el f hid]
  cases hl : lookupN d el with
  | none => rw [hl] at h; cases h
  | some n =>
    rw [hl] at h
    have hn : n.btgDone = true := by simpa using h
    by_cases hni : n.id = i
    · simp [hni, hdp n hn]
    · simp [hni, hn]

theorem doneAt_append {d t : Doc} {el : Nat}
    (h : (lookupN d el).map (fun n => n.btgDone) = some true) :
    (lookupN (d ++ t) el).map (fun n => n.btgDone) = some true := by
  cases hl : lookupN d el with
  | none => rw [hl] at h; cases h
  | some n =>
    rw [hl] at h
    have : lookupN (d ++ t) el = some n := by
      unfold lookupN at hl ⊢
      rw [List.find?_append, hl]
      rfl
    rw [this, h]

theorem doneMono_updNode (d : Doc) (i : Nat) (f : Node → Node)
    (hid : ∀ n, (f n).id = n.id)
    (hdp : ∀ n, n.btgDone = true → (f n).btgDone = true) :
    DoneMono d (updNode d i f) :=
  fun _ h => doneAt_updNode i f hid hdp h

theorem doneMono_append (d t : Doc) : DoneMono d (d ++ t) :=
  fun _ h => doneAt_append h

theorem doneMono_trans {d d1 d2 : Doc} (h1 : DoneMono d d1) (h2 : DoneMono d1 d2) :
    DoneMono d d2 :=
  fun i h => h2 i (h1 i h)

theorem doneAt_markDone {d : Doc} {el : Nat} {n : Node} (hl : lookupN d el = some n) :
    (lookupN (updNode d el markDoneF) el).map (fun n => n.btgDone) = some true := by
  rw [lookupN_updNode _ _ _ markDoneF (fun _ => rfl), hl]
  have hid : n.id = el := (lookupN_mem_id hl).2
  simp [hid, markDoneF]

theorem skipsB_of_doneAt {s : Settings} {d : Doc} {el : Nat}
    (h : (lookupN d el).map (fun n => n.btgDone) = some true) :
    skipsB s d el = true := by
  unfold skipsB
  cases hl : lookupN d el with
  | none => rfl
  | some n =>
    rw [hl] at h
    have : n.btgDone = true := by simpa using h
    simp [this]

/- ## WF preservation -/

theorem idsOf_updNode (d : Doc) (i : Nat) (f : Node → Node)
    (hid : ∀ n, (f n).id = n.id) : idsOf (updNode d i f) = idsOf d := by
  unfold idsOf updNode
  rw [List.map_map]
  congr 1
  funext n
  simp only [Function.comp_apply]
  by_cases h : n.id == i
  · simp [h, hid]
  · simp [h]

theorem wf_updNode {d : Doc} (i : Nat) (f : Node → Node)
    (hid : ∀ n, (f n).id = n.id) (hpar : ∀ n, (f n).parent = n.parent)
    (h : WF d) : WF (updNode d i f) := by
  constructor
  · rw [idsOf_updNode d i f hid]
    exact h.1
  · intro n hn q hq
    unfold updNode at hn
    rcases List.mem_map.mp hn with ⟨m, hm, rfl⟩
    have e1 : (if m.id == i then f m else m).parent = m.parent := by
      by_cases hmi : m.id == i
      · simp [hmi, hpar]
      · simp [hmi]
    have e2 : (if m.id == i then f m else m).id = m.id := by
      by_cases hmi : m.id == i
      · simp [hmi, hid]
      · simp [hmi]
    rw [e1] at hq
    rw [e2]
    exact h.2 m hm q hq

theorem wf_append {d : Doc} {e : Node} (h : WF d) (hi : maxId d < e.id)
    (hp : ∀ q, e.parent = some q → q < e.id) : WF (d ++ [e]) := by
  constructor
  · unfold idsOf
    rw [List.map_append]
    refine List.Nodup.append h.1 (by simp) ?_
    intro a ha hb
    rw [List.map_singleton, List.mem_singleton] at hb
    subst hb
    rcases List.mem_map.mp ha with ⟨m, hm, hme⟩
    have := le_maxId hm
    omega
  · intro n hn q hq
    rcases List.mem_append.mp hn with hn1 | hn2
    · exact h.2 n hn1 q hq
    · rw [List.mem_singleton] at hn2
      subst hn2
      exact hp q hq

theorem getOwnerNode_le {d : Doc}
    (hwf : ∀ n ∈ d, ∀ q, n.parent = some q → q < n.id)
    {i : Nat} {pk : Bool} {o : Nat} (h : getOwnerNode d i pk = some o) :
    o ≤ maxId d := by
  unfold getOwnerNode ofirst at h
  cases pk with
  | true =>
    simp only [if_true] at h
    cases h1 : closest d (fun n => classHas n "result__") i with
    | some w =>
      rw [h1] at h
      cases h
      exact closest_le_maxId h1
    | none =>
      rw [h1] at h
      exact parentOf_le hwf h
  | false =>
    simp only [Bool.false_eq_true, if_false] at h
    cases h1 : closest d (fun n => classHas n "imageWrapper") i with
    | some w =>
      rw [h1] at h
      cases h
      exact closest_le_maxId h1
    | none =>
      rw [h1] at h
      cases h2 : closest d (fun n => classHas n "embedWrapper") i with
      | some w =>
        rw [h2] at h
        cases h
        exact closest_le_maxId h2
      | none =>
        rw [h2] at h
        cases h3 : closest d (fun n => n.tag == "article") i with
        | some w =>
          rw [h3] at h
          cases h
          exact closest_le_maxId h3
        | none =>
          rw [h3] at h
          cases h4 : closest d accSel i with
          | some w =>
            rw [h4] at h
            cases h
            exact closest_le_maxId h4
          | none =>
            rw [h4] at h
            exact parentOf_le hwf h

/- ## The per-candidate step lemma -/

theorem pe_skip {s : Settings} {d : Doc} {el : Nat} (h : skipsB s d el = true) :
    processElement s d el = some d := by
  unfold skipsB at h
  unfold processElement
  cases hl : lookupN d el with
  | none => rfl
  | some n =>
    rw [hl] at h
    by_cases h1 : n.btgDone
    · simp [h1]
    · simp only [h1, Bool.false_or] at h
      by_cases h2 : (urlsOf d el).any (fun u => isGifUrl (some u))
      · simp only [h2, Bool.not_true, Bool.false_or] at h
        by_cases h3 : (urlsOf d el).any (fun u => isBlocked s (some u))
        · simp only [h3, Bool.not_true, Bool.false_or] at h
          simp [h1, h2, h3, h]
        · simp [h1, h2, h3]
      · simp [h1, h2]

theorem hideClickUpd_main {d : Doc} (el : Nat) (pk : Bool) (ow : Option Nat)
    (hwf : WF d) :
    Ext d (hideClickUpd d el pk ow) ∧ DoneMono d (hideClickUpd d el pk ow) ∧
      WF (hideClickUpd d el pk ow) ∧ maxId (hideClickUpd d el pk ow) = maxId d := by
  unfold hideClickUpd
  cases pk with
  | false =>
    simp only [Bool.false_eq_true, if_false]
    exact ⟨ext_updNode d _ hideF hideF_static,
      doneMono_updNode d _ hideF (fun _ => rfl) (fun _ hh => hh),
      wf_updNode _ hideF (fun _ => rfl) (fun _ => rfl) hwf,
      maxId_updNode d _ hideF (fun _ => rfl)⟩
  | true =>
    simp only [if_true]
    cases ow with
    | none =>
      exact ⟨ext_updNode d _ hideF hideF_static,
        doneMono_updNode d _ hideF (fun _ => rfl) (fun _ hh => hh),
        wf_updNode _ hideF (fun _ => rfl) (fun _ => rfl) hwf,
        maxId_updNode d _ hideF (fun _ => rfl)⟩
    | some o =>
      refine ⟨ext_trans (ext_updNode d _ hideF hideF_static)
          (ext_updNode _ o clickBlockF clickBlockF_static),
        doneMono_trans (doneMono_updNode d _ hideF (fun _ => rfl) (fun _ hh => hh))
          (doneMono_updNode _ o clickBlockF (fun _ => rfl) (fun _ hh => hh)),
        wf_updNode o clickBlockF (fun _ => rfl) (fun _ => rfl)
          (wf_updNode _ hideF (fun _ => rfl) (fun _ => rfl) hwf), ?_⟩
      rw [maxId_updNode _ o clickBlockF (fun _ => rfl),
        maxId_updNode d _ hideF (fun _ => rfl)]

theorem hae_main {d : Doc} {el : Nat} {pk : Bool} {ow : Option Nat} {d' : Doc}
    (hwf : WF d) (how : ∀ o, ow = some o → o ≤ maxId d)
    (h : hideAndEmbed d el pk ow = some d') :
    Ext d d' ∧ DoneMono d d' ∧ WF d' := by
  unfold hideAndEmbed at h
  rcases hideClickUpd_main el pk ow hwf with ⟨hx, hm, hwf2, hmax⟩
  cases hti : (if pk then ofirst ow (parentOf d el)
      else ofirst (closest d accSel (wrapperOf d el pk))
        (parentOf d (wrapperOf d el pk))) with
  | none => rw [hti] at h; cases h
  | some t =>
    rw [hti] at h
    have ht : t ≤ maxId d := by
      cases pk with
      | true =>
        simp only [if_true] at hti
        cases how2 : ow with
        | some o =>
          rw [how2] at hti
          have : o = t := by simpa [ofirst] using hti
          subst this
          exact how o how2
        | none =>
          rw [how2] at hti
          have hti2 : parentOf d el = some t := by simpa [ofirst] using hti
          exact parentOf_le hwf.2 hti2
      | false =>
        simp only [Bool.false_eq_true, if_false] at hti
        cases hc : closest d accSel (wrapperOf d el false) with
        | some j =>
          rw [hc] at hti
          have : j = t := by simpa [ofirst] using hti
          subst this
          exact closest_le_maxId hc
        | none =>
          rw [hc] at hti
          have hti2 : parentOf d (wrapperOf d el false) = some t := by
            simpa [ofirst] using hti
          exact parentOf_le hwf.2 hti2
    cases h
    refine ⟨ext_trans hx (ext_append _ _ (mkEmbed_not_candidate ..)
        (by rw [mkEmbed_id]; omega)),
      doneMono_trans hm (doneMono_append _ _), ?_⟩
    refine wf_append hwf2 (by rw [mkEmbed_id]; omega) ?_
    intro q hq
    have hqt : t = q := by simpa [mkEmbed] using hq
    show q < maxId (hideClickUpd d el pk ow) + 1
    omega

theorem pe_main {s : Settings} {d : Doc} {el : Nat} {d' : Doc} (hwf : WF d)
    (h : processElement s d el = some d') :
    Ext d d' ∧ DoneMono d d' ∧ WF d' ∧ skipsB s d' el = true := by
  unfold processElement at h
  cases hl : lookupN d el with
  | none =>
    rw [hl] at h
    cases h
    refine ⟨ext_refl d, fun i hh => hh, hwf, ?_⟩
    unfold skipsB
    rw [hl]
  | some n =>
    rw [hl] at h
    dsimp only at h
    by_cases h1 : n.btgDone
    · rw [if_pos h1] at h
      cases h
      exact ⟨ext_refl d, fun i hh => hh, hwf, by unfold skipsB; rw [hl]; simp [h1]⟩
    · rw [if_neg h1] at h
      by_cases h2 : (urlsOf d el).any (fun u => isGifUrl (some u))
      · rw [if_neg (by simp [h2])] at h
        by_cases h3 : (urlsOf d el).any (fun u => isBlocked s (some u))
        · rw [if_neg (by simp [h3])] at h
          by_cases h4 : (isInGifPicker d el && !s.blockInPicker)
          · rw [if_pos h4] at h
            cases h
            refine ⟨ext_refl d, fun i hh => hh, hwf, ?_⟩
            unfold skipsB
            rw [hl]
            simp [h4]
          · rw [if_neg h4] at h
            have hx1 : Ext d (updNode d el markDoneF) :=
              ext_updNode d el markDoneF markDoneF_static
            have hm1 : DoneMono d (updNode d el markDoneF) :=
              doneMono_updNode d el markDoneF (fun _ => rfl) (fun _ _ => rfl)
            have hw1 : WF (updNode d el markDoneF) :=
              wf_updNode el markDoneF (fun _ => rfl) (fun _ => rfl) hwf
            have hmax1 : maxId (updNode d el markDoneF) = maxId d :=
              maxId_updNode d el markDoneF (fun _ => rfl)
            have hdone1 : (lookupN (updNode d el markDoneF) el).map
                (fun n => n.btgDone) = some true := doneAt_markDone hl
            cases how : getOwnerNode (updNode d el markDoneF) el
                (isInGifPicker d el) with
            | some o =>
              rw [how] at h
              dsimp only at h
              by_cases h5 : (match lookupN (updNode d el markDoneF) o with
                  | some m => m.btgOwnerDone
                  | none => false)
              · rw [if_pos h5] at h
                cases h
                refine ⟨ext_trans hx1 (ext_updNode _ _ hideF hideF_static),
                  doneMono_trans hm1
                    (doneMono_updNode _ _ hideF (fun _ => rfl) (fun _ hh => hh)),
                  wf_updNode _ hideF (fun _ => rfl) (fun _ => rfl) hw1,
                  skipsB_of_doneAt
                    (doneAt_updNode _ hideF (fun _ => rfl) (fun _ hh => hh) hdone1)⟩
              · rw [if_neg h5] at h
                have ho_le : o ≤ maxId (updNode d el markDoneF) :=
                  getOwnerNode_le hw1.2 how
                have hx2 : Ext (updNode d el markDoneF)
                    (updNode (updNode d el markDoneF) o markOwnerF) :=
                  ext_updNode _ o markOwnerF markOwnerF_static
                have hm2 : DoneMono (updNode d el markDoneF)
                    (updNode (updNode d el markDoneF) o markOwnerF) :=
                  doneMono_updNode _ o markOwnerF (fun _ => rfl) (fun _ hh => hh)
                have hw2 : WF (updNode (updNode d el markDoneF) o markOwnerF) :=
                  wf_updNode o markOwnerF (fun _ => rfl) (fun _ => rfl) hw1
                have hmax2 : maxId (updNode (updNode d el markDoneF) o markOwnerF) =
                    maxId (updNode d el markDoneF) :=
                  maxId_updNode _ o markOwnerF (fun _ => rfl)
                have hdone2 : (lookupN (updNode (updNode d el markDoneF) o markOwnerF)
                    el).map (fun n => n.btgDone) = some true :=
                  doneAt_updNode o markOwnerF (fun _ => rfl) (fun _ hh => hh) hdone1
                rcases hae_main hw2
                  (fun o2 ho2 => by
                    have : o2 = o := by simpa using ho2.symm
                    subst this
                    rw [hmax2]
                    exact ho_le) h with ⟨hx3, hm3, hw3⟩
                exact ⟨ext_trans hx1 (ext_trans hx2 hx3),
                  doneMono_trans hm1 (doneMono_trans hm2 hm3), hw3,
                  skipsB_of_doneAt (hm3 el hdone2)⟩
            | none =>
              rw [how] at h
              rcases hae_main hw1 (fun o ho => by cases ho) h with ⟨hx3, hm3, hw3⟩
              exact ⟨ext_trans hx1 hx3, doneMono_trans hm1 hm3, hw3,
                skipsB_of_doneAt (hm3 el hdone1)⟩
        · rw [if_pos (by simp [h3])] at h
          cases h
          refine ⟨ext_refl d, fun i hh => hh, hwf, ?_⟩
          unfold skipsB
          rw [hl]
          simp [h3]
      · rw [if_pos (by simp [h2])] at h
        cases h
        refine ⟨ext_refl d, fun i hh => hh, hwf, ?_⟩
        unfold skipsB
        rw [hl]
        simp [h2]

/- ## Skip-condition transport and the scan folds -/

theorem skipsB_agree {d d' : Doc} {bad : Nat → Prop} (hag : Agrees d d' bad)
    {s : Settings} {el : Nat} (hi : el ≤ maxId d) (hb : ¬ bad el)
    (hdp : (lookupN d el).map (fun n => n.btgDone) = some true →
      (lookupN d' el).map (fun n => n.btgDone) = some true)
    (h : skipsB s d el = true) : skipsB s d' el = true := by
  unfold skipsB at h ⊢
  have hH := hag.2.1 el hi hb
  cases h1 : lookupN d el with
  | none =>
    rw [h1] at hH
    cases h2 : lookupN d' el with
    | none => rfl
    | some b => rw [h2] at hH; exact hH.elim
  | some n =>
    rw [h1] at h hH
    cases h2 : lookupN d' el with
    | none => rw [h2] at hH
    | some b =>
      rw [h2] at hH
      dsimp only at h ⊢
      rw [urlsOf_agree hag hi hb, picker_agree hag hi hb]
      by_cases hd : n.btgDone
      · have hb2 : b.btgDone = true := by
          have := hdp (by rw [h1]; simpa using hd)
          rw [h2] at this
          simpa using this
        simp [hb2]
      · simp only [hd, Bool.false_or] at h
        simp only [Bool.or_eq_true] at h ⊢
        rcases h with (hA | hB) | hC
        · exact Or.inl (Or.inl (Or.inr hA))
        · exact Or.inl (Or.inr hB)
        · exact Or.inr hC

theorem fold_main {s : Settings} : ∀ (L : List Nat) (d : Doc), WF d →
    (∀ el ∈ L, el ≤ maxId d) → ∀ d',
    L.foldlM (fun acc el => processElement s acc el) d = some d' →
    Ext d d' ∧ DoneMono d d' ∧ WF d' ∧ ∀ el ∈ L, skipsB s d' el = true := by
  intro L
  induction L with
  | nil =>
    intro d hwf _ d' h
    rw [List.foldlM_nil] at h
    cases h
    exact ⟨ext_refl d, fun i hh => hh, hwf, by simp⟩
  | cons a L ih =>
    intro d hwf hle d' h
    rw [List.foldlM_cons] at h
    cases ha : processElement s d a with
    | none => rw [ha] at h; cases h
    | some d1 =>
      rw [ha] at h
      rcases pe_main hwf ha with ⟨hx1, hm1, hw1, hs1⟩
      have hmax1 : maxId d ≤ maxId d1 := maxId_le_ext hx1
      have hle1 : ∀ el ∈ L, el ≤ maxId d1 := fun el hel =>
        le_trans (hle el (List.mem_cons_of_mem a hel)) hmax1
      rcases ih d1 hw1 hle1 d' (by simpa using h) with ⟨hx2, hm2, hw2, hs2⟩
      refine ⟨ext_trans hx1 hx2, doneMono_trans hm1 hm2, hw2, ?_⟩
      intro el hel
      rcases List.mem_cons.mp hel with rfl | hel2
      · refine skipsB_agree (agrees_of_ext hw1 hx2)
          (le_trans (hle el (by simp)) hmax1) not_false (hm2 el) hs1
      · exact hs2 el hel2

theorem fold_skip {s : Settings} : ∀ (L : List Nat) (d : Doc),
    (∀ el ∈ L, skipsB s d el = true) →
    L.foldlM (fun acc el => processElement s acc el) d = some d := by
  intro L
  induction L with
  | nil => intro d _; rfl
  | cons a L ih =>
    intro d h
    rw [List.foldlM_cons, pe_skip (h a (by simp))]
    simpa using ih d (fun el hel => h el (List.mem_cons_of_mem a hel))

/- ## Candidate-set stability -/

theorem candidates_le {d : Doc} {c : Nat} : ∀ el ∈ candidatesOf d c, el ≤ maxId d := by
  intro el hel
  unfold candidatesOf at hel
  rcases List.mem_append.mp hel with h1 | h2
  · cases hlc : lookupN d c with
    | none => rw [hlc] at h1; cases h1
    | some cn =>
      rw [hlc] at h1
      dsimp only at h1
      by_cases hic : isCandidate cn
      · rw [if_pos hic] at h1
        rw [List.mem_singleton] at h1
        subst h1
        have := (lookupN_mem_id hlc).2
        have := le_maxId (lookupN_mem_id hlc).1
        omega
      · rw [if_neg hic] at h1
        cases h1
  · rcases List.mem_map.mp h2 with ⟨m, hm, rfl⟩
    exact le_maxId (List.mem_filter.mp hm).1

theorem forall₂_filter_map_id : ∀ {d u : Doc}, List.Forall₂ StaticEq d u →
    ∀ {q q' : Node → Bool}, (∀ m n, m ∈ d → StaticEq m n → q' n = q m) →
    (u.filter q').map (·.id) = (d.filter q).map (·.id) := by
  intro d u hf
  induction hf with
  | nil => intro q q' _; rfl
  | cons h1 hrest ih =>
    intro q q' hq
    rename_i a b l1 l2
    have hab : q' b = q a := hq a b (by simp) h1
    rw [List.filter_cons, List.filter_cons, hab]
    by_cases hqa : q a
    · simp only [hqa, if_true, List.map_cons]
      rw [h1.idE, ih (fun m n hm hsm => hq m n (List.mem_cons_of_mem _ hm) hsm)]
    · simp only [hqa, Bool.false_eq_true, if_false]
      exact ih (fun m n hm hsm => hq m n (List.mem_cons_of_mem _ hm) hsm)

theorem candidates_ext {d d' : Doc} (hwf : WF d) (hx : Ext d d') {c : Nat}
    (hc : c ≤ maxId d) : candidatesOf d' c = candidatesOf d c := by
  have hag := agrees_of_ext hwf hx
  unfold candidatesOf
  have hhead : (match lookupN d' c with
      | some cn => if isCandidate cn then [c] else []
      | none => []) =
      (match lookupN d c with
      | some cn => if isCandidate cn then [c] else []
      | none => ([] : List Nat)) := by
    have hH := hag.2.1 c hc not_false
    cases h1 : lookupN d c with
    | none =>
      rw [h1] at hH
      cases h2 : lookupN d' c with
      | none => rfl
      | some b => rw [h2] at hH; exact hH.elim
    | some n =>
      rw [h1] at hH
      cases h2 : lookupN d' c with
      | none => rw [h2] at hH; exact hH.elim
      | some b =>
        rw [h2] at hH
        dsimp only
        rw [← isCandidate_static hH]
  rw [hhead]
  congr 1
  rcases hx with ⟨u, t, rfl, hu, ht⟩
  rw [List.filter_append, List.map_append]
  have htnil : t.filter (fun n => isCandidate n && descOf (u ++ t) c n) = [] := by
    refine List.filter_eq_nil_iff.mpr (fun n hn => ?_)
    rcases ht n hn with ⟨hcand, _⟩
    simp [hcand]
  rw [htnil]
  simp only [List.map_nil, List.append_nil]
  refine forall₂_filter_map_id hu (fun m n hm hsm => ?_)
  rw [← isCandidate_static hsm, descOf_agree hag hm hsm]

/- ## C3: the scan pipeline is idempotent -/

/-- C3: running processContainer a second time on the same subtree of the
resulting document changes nothing: the first run leaves every candidate
either marked processed or still failing one of the pure skip conditions
(no GIF-like URL, no blocked URL, picker with blocking off), and the run
only changes markers and styles and appends non-candidate placeholders,
so every candidate of the second run is skipped and the document is
returned unchanged — no duplicate placeholder, no second hiding, no
second marking. -/
theorem C3_processContainer_idempotent :
    ∀ (s : Settings) (d : Doc) (c : Nat) (d1 : Doc), WF d →
      processContainer s d c = some d1 →
      processContainer s d1 c = some d1 := by
  intro s d c d1 hwf h
  unfold processContainer at h ⊢
  cases hlc : lookupN d c with
  | none =>
    rw [hlc] at h
    cases h
    rw [hlc]
  | some cn =>
    rw [hlc] at h
    dsimp only at h
    have hc_le : c ≤ maxId d := by
      have h1 := (lookupN_mem_id hlc).2
      have h2 := le_maxId (lookupN_mem_id hlc).1
      omega
    rcases fold_main (candidatesOf d c) d hwf candidates_le d1 h with ⟨hx, hm, hw1, hs⟩
    cases hlc1 : lookupN d1 c with
    | none => rfl
    | some cb =>
      dsimp only
      rw [candidates_ext hwf hx hc_le]
      exact fold_skip (candidatesOf d c) d1 hs

theorem WF_check {d : Doc} (h1 : (idsOf d).Nodup) (h2 : d.all parentLtB = true) :
    WF d := by
  refine ⟨h1, fun n hn q hq => ?_⟩
  have h3 := List.all_eq_true.mp h2 n hn
  unfold parentLtB at h3
  rw [hq] at h3
  simpa using h3

/-- Witness for C3: rescanning the already-scanned message scenario is a
no-op. -/
theorem C3_processContainer_idempotent_witness :
    processContainer defS dMsgScanned 0 = some dMsgScanned :=
  C3_processContainer_idempotent defS dMsg 0 dMsgScanned
    (WF_check (by decide) (by decide)) (by decide)

/- ## C9 (amended): the pipeline only fails on a missing insertion target -/

theorem wrapperOf_le {d : Doc} {el : Nat} (hel : el ≤ maxId d) (pk : Bool) :
    wrapperOf d el pk ≤ maxId d := by
  unfold wrapperOf
  cases pk with
  | true => simpa using hel
  | false =>
    simp only [Bool.false_eq_true, if_false]
    cases hc : closest d wrapSel el with
    | some w => exact closest_le_maxId hc
    | none => exact hel

/-- C9 (amended): processElement never fails when the insertion target
the source would resolve exists: every other missing structure (absent
wrapper ancestor, absent owner, absent accessories container, absent or
empty URLs) falls back or skips without error. -/
theorem C9_no_throw_when_target_exists :
    ∀ (s : Settings) (d : Doc) (el : Nat), WF d →
      (insTargetOf d el).isSome = true → (processElement s d el).isSome = true := by
  intro s d el hwf hit
  unfold processElement
  cases hl : lookupN d el with
  | none => rfl
  | some n =>
    dsimp only
    by_cases h1 : n.btgDone
    · simp [h1]
    · rw [if_neg h1]
      by_cases h2 : (urlsOf d el).any (fun u => isGifUrl (some u))
      · rw [if_neg (by simp [h2])]
        by_cases h3 : (urlsOf d el).any (fun u => isBlocked s (some u))
        · rw [if_neg (by simp [h3])]
          have hel_le : el ≤ maxId d := by
            have ha := (lookupN_mem_id hl).2
            have hb := le_maxId (lookupN_mem_id hl).1
            omega
          have hx1 : Ext d (updNode d el markDoneF) :=
            ext_updNode d el markDoneF markDoneF_static
          have hag1 : Agrees d (updNode d el markDoneF) (fun _ => False) :=
            agrees_of_ext hwf hx1
          have hw1 : WF (updNode d el markDoneF) :=
            wf_updNode el markDoneF (fun _ => rfl) (fun _ => rfl) hwf
          unfold insTargetOf at hit
          cases hpk : isInGifPicker d el with
          | true =>
            rw [hpk] at hit
            simp only [if_true] at hit
            by_cases h4 : !s.blockInPicker
            · simp [h4]
            · rw [if_neg (by simp only [Bool.true_and]; exact h4)]
              cases how : getOwnerNode (updNode d el markDoneF) el true with
              | some o =>
                dsimp only
                by_cases h5 : (match lookupN (updNode d el markDoneF) o with
                    | some m => m.btgOwnerDone
                    | none => false)
                · simp [h5]
                · rw [if_neg h5]
                  unfold hideAndEmbed
                  simp only [if_true, ofirst]
                  rfl
              | none =>
                dsimp only
                unfold hideAndEmbed
                simp only [if_true]
                have how2 : getOwnerNode d el true = none := by
                  rw [← owner_agree hag1 hel_le not_false true]
                  exact how
                rw [how2] at hit
                have hpar : parentOf (updNode d el markDoneF) el = parentOf d el :=
                  parentOf_agree hag1 hel_le not_false
                rw [show ofirst none (parentOf (updNode d el markDoneF) el) =
                    parentOf (updNode d el markDoneF) el from rfl, hpar]
                have hit2 : (parentOf d el).isSome = true := by
                  simpa [ofirst] using hit
                cases hp : parentOf d el with
                | none => rw [hp] at hit2; cases hit2
                | some t => rfl
          | false =>
            rw [hpk] at hit
            simp only [Bool.false_eq_true, if_false] at hit
            rw [if_neg (by simp)]
            have hwr : wrapperOf (updNode d el markDoneF) el false =
                wrapperOf d el false :=
              wrapperOf_agree hag1 hel_le not_false false
            have hwle : wrapperOf d el false ≤ maxId d := wrapperOf_le hel_le false
            have hcl : closest (updNode d el markDoneF) accSel (wrapperOf d el false) =
                closest d accSel (wrapperOf d el false) :=
              closest_agree hag1
                (fun a b hs => by unfold accSel; rw [hs.idAttrE]) hwle not_false
            have hple : parentOf (updNode d el markDoneF) (wrapperOf d el false) =
                parentOf d (wrapperOf d el false) :=
              parentOf_agree hag1 hwle not_false
            cases how : getOwnerNode (updNode d el markDoneF) el false with
            | some o =>
              dsimp only
              by_cases h5 : (match lookupN (updNode d el markDoneF) o with
                  | some m => m.btgOwnerDone
                  | none => false)
              · simp [h5]
              · rw [if_neg h5]
                unfold hideAndEmbed
                simp only [Bool.false_eq_true, if_false]
                have hwr2 : wrapperOf
                    (updNode (updNode d el markDoneF) o markOwnerF) el false =
                    wrapperOf d el false := by
                  have hx2 : Ext d (updNode (updNode d el markDoneF) o markOwnerF) :=
                    ext_trans hx1 (ext_updNode _ o markOwnerF markOwnerF_static)
                  exact wrapperOf_agree (agrees_of_ext hwf hx2) hel_le not_false false
                have hag2 : Agrees d (updNode (updNode d el markDoneF) o markOwnerF)
                    (fun _ => False) :=
                  agrees_of_ext hwf
                    (ext_trans hx1 (ext_updNode _ o markOwnerF markOwnerF_static))
                rw [hwr2]
                rw [closest_agree hag2
                  (fun a b hs => by unfold accSel; rw [hs.idAttrE]) hwle not_false]
                rw [parentOf_agree hag2 hwle not_false]
                cases hsc : ofirst (closest d accSel (wrapperOf d el false))
                    (parentOf d (wrapperOf d el false)) with
                | none => rw [hsc] at hit; cases hit
                | some t => rfl
            | none =>
              dsimp only
              unfold hideAndEmbed
              simp only [Bool.false_eq_true, if_false]
              rw [hwr, hcl, hple]
              cases hsc : ofirst (closest d accSel (wrapperOf d el false))
                  (parentOf d (wrapperOf d el false)) with
              | none => rw [hsc] at hit; cases hit
              | some t => rfl
        · simp [h3]
      · simp [h2]

/-- Witness for C9 (amended): the message scenario's image has an existing
insertion target (its accessories ancestor), so processElement succeeds. -/
theorem C9_no_throw_when_target_exists_witness :
    (processElement defS dMsg 3).isSome = true :=
  C9_no_throw_when_target_exists defS dMsg 3 (WF_check (by decide) (by decide))
    (by decide)

/- ## Reveal-handler stage lemmas -/

theorem optSE_refl : ∀ x : Option Node, optSE x x
  | none => trivial
  | some n => StaticEq.selfEq n

theorem updNode_optSE (d : Doc) (j : Nat) (f : Node → Node)
    (hid : ∀ n, (f n).id = n.id) (hstat : ∀ n, StaticEq n (f n)) (i : Nat) :
    optSE (lookupN d i) (lookupN (updNode d j f) i) := by
  rw [lookupN_updNode d j i f hid]
  cases h : lookupN d i with
  | none => trivial
  | some n =>
    show optSE (some n) (some (if n.id == j then f n else n))
    by_cases hj : n.id == j
    · rw [if_pos hj]; exact hstat n
    · rw [if_neg hj]; exact StaticEq.selfEq n

theorem foldl_updNode_optSE (f : Node → Node) (hid : ∀ n, (f n).id = n.id)
    (hstat : ∀ n, StaticEq n (f n)) :
    ∀ (ids : List Nat) (d : Doc) (i : Nat),
      optSE (lookupN d i) (lookupN (ids.foldl (fun acc jj => updNode acc jj f) d) i) := by
  intro ids
  induction ids with
  | nil => intro d i; exact optSE_refl _
  | cons a t ih =>
    intro d i
    rw [List.foldl_cons]
    exact optSE_trans (updNode_optSE d a f hid hstat i) (ih (updNode d a f) i)

theorem updNode_doneEq (d : Doc) (j : Nat) (f : Node → Node)
    (hid : ∀ n, (f n).id = n.id) (hdone : ∀ n, (f n).btgDone = n.btgDone) (i : Nat) :
    (lookupN (updNode d j f) i).map (fun n => n.btgDone) =
      (lookupN d i).map (fun n => n.btgDone) := by
  rw [lookupN_updNode d j i f hid]
  cases h : lookupN d i with
  | none => rfl
  | some n =>
    show some (if n.id == j then f n else n).btgDone = some n.btgDone
    by_cases hj : n.id == j
    · rw [if_pos hj, hdone]
    · rw [if_neg hj]

theorem foldl_updNode_doneEq (f : Node → Node) (hid : ∀ n, (f n).id = n.id)
    (hdone : ∀ n, (f n).btgDone = n.btgDone) :
    ∀ (ids : List Nat) (d : Doc) (i : Nat),
      (lookupN (ids.foldl (fun acc jj => updNode acc jj f) d) i).map
          (fun n => n.btgDone) =
        (lookupN d i).map (fun n => n.btgDone) := by
  intro ids
  induction ids with
  | nil => intro d i; rfl
  | cons a t ih =>
    intro d i
    rw [List.foldl_cons, ih (updNode d a f) i, updNode_doneEq d a f hid hdone i]

theorem lookup_filter_ne (d : Doc) (cont i : Nat) (hi : i ≠ cont) :
    lookupN (d.filter (fun n => n.id ≠ cont)) i = lookupN d i := by
  induction d with
  | nil => rfl
  | cons a l ih =>
    rw [List.filter_cons]
    by_cases hac : a.id = cont
    · rw [if_neg (by simp [hac])]
      rw [ih]
      unfold lookupN
      rw [List.find?_cons_of_neg]
      simp only [beq_iff_eq, hac]
      exact fun he => hi he.symm
    · rw [if_pos (by simp [hac])]
      unfold lookupN at ih ⊢
      by_cases hai : a.id = i
      · rw [List.find?_cons_of_pos (p := fun n : Node => n.id == i) _ (by simpa using hai),
          List.find?_cons_of_pos (p := fun n : Node => n.id == i) _ (by simpa using hai)]
      · rw [List.find?_cons_of_neg (p := fun n : Node => n.id == i) _ (by simpa using hai),
          List.find?_cons_of_neg (p := fun n : Node => n.id == i) _ (by simpa using hai)]
        exact ih

theorem mem_updNode_rev (d : Doc) (j : Nat) (f : Node → Node)
    (hstat : ∀ n, StaticEq n (f n)) :
    ∀ n' ∈ updNode d j f, ∃ m ∈ d, StaticEq m n' := by
  intro n' hn'
  unfold updNode at hn'
  rcases List.mem_map.mp hn' with ⟨m, hm, rfl⟩
  by_cases hj : m.id == j
  · rw [if_pos hj]; exact ⟨m, hm, hstat m⟩
  · rw [if_neg hj]; exact ⟨m, hm, StaticEq.selfEq m⟩

theorem mem_foldl_updNode_rev (f : Node → Node) (hstat : ∀ n, StaticEq n (f n)) :
    ∀ (ids : List Nat) (d : Doc), ∀ n' ∈ ids.foldl (fun acc jj => updNode acc jj f) d,
      ∃ m ∈ d, StaticEq m n' := by
  intro ids
  induction ids with
  | nil => intro d n' hn'; exact ⟨n', hn', StaticEq.selfEq n'⟩
  | cons a t ih =>
    intro d n' hn'
    rw [List.foldl_cons] at hn'
    rcases ih (updNode d a f) n' hn' with ⟨m1, hm1, hs1⟩
    rcases mem_updNode_rev d a f hstat m1 hm1 with ⟨m, hm, hs⟩
    exact ⟨m, hm, StaticEq.comp hs hs1⟩

theorem revealPre_optSE (d : Doc) (w : Nat) (o : Option Nat) (i : Nat) :
    optSE (lookupN d i) (lookupN (revealPre d w o) i) := by
  have h1 : optSE (lookupN d i) (lookupN (revealDescs d w) i) := by
    unfold revealDescs
    exact optSE_trans (updNode_optSE d w unhideF (fun _ => rfl) (fun n => ⟨rfl, rfl,
      rfl, rfl, rfl, rfl, rfl, rfl, rfl⟩) i)
      (foldl_updNode_optSE unhideF (fun _ => rfl)
        (fun n => ⟨rfl, rfl, rfl, rfl, rfl, rfl, rfl, rfl, rfl⟩) _ _ i)
  unfold revealPre
  cases o with
  | none => exact h1
  | some oo =>
    exact optSE_trans h1 (updNode_optSE _ oo unmarkOwnerF (fun _ => rfl)
      (fun n => ⟨rfl, rfl, rfl, rfl, rfl, rfl, rfl, rfl, rfl⟩) i)

theorem reveal_optSE (d : Doc) (w : Nat) (o : Option Nat) (cont : Nat) (pk : Bool)
    (i : Nat) (hi : i ≠ cont) :
    optSE (lookupN d i) (lookupN (reveal d w o cont pk) i) := by
  have h1 : optSE (lookupN d i)
      (lookupN ((revealPre d w o).filter (fun n => n.id ≠ cont)) i) := by
    rw [lookup_filter_ne _ cont i hi]
    exact revealPre_optSE d w o i
  unfold reveal
  cases pk with
  | false => exact h1
  | true =>
    cases o with
    | none => exact h1
    | some oo =>
      exact optSE_trans h1 (updNode_optSE _ oo unclickF (fun _ => rfl)
        (fun n => ⟨rfl, rfl, rfl, rfl, rfl, rfl, rfl, rfl, rfl⟩) i)

theorem revealPre_doneEq (d : Doc) (w : Nat) (o : Option Nat) (i : Nat) :
    (lookupN (revealPre d w o) i).map (fun n => n.btgDone) =
      (lookupN d i).map (fun n => n.btgDone) := by
  have h1 : (lookupN (revealDescs d w) i).map (fun n => n.btgDone) =
      (lookupN d i).map (fun n => n.btgDone) := by
    unfold revealDescs
    rw [foldl_updNode_doneEq unhideF (fun _ => rfl) (fun _ => rfl),
      updNode_doneEq d w unhideF (fun _ => rfl) (fun _ => rfl)]
  unfold revealPre
  cases o with
  | none => exact h1
  | some oo =>
    rw [updNode_doneEq _ oo unmarkOwnerF (fun _ => rfl) (fun _ => rfl), h1]

theorem reveal_doneEq (d : Doc) (w : Nat) (o : Option Nat) (cont : Nat) (pk : Bool)
    (i : Nat) (hi : i ≠ cont) :
    (lookupN (reveal d w o cont pk) i).map (fun n => n.btgDone) =
      (lookupN d i).map (fun n => n.btgDone) := by
  have h1 : (lookupN ((revealPre d w o).filter (fun n => n.id ≠ cont)) i).map
      (fun n => n.btgDone) = (lookupN d i).map (fun n => n.btgDone) := by
    rw [lookup_filter_ne _ cont i hi, revealPre_doneEq]
  unfold reveal
  cases pk with
  | false => exact h1
  | true =>
    cases o with
    | none => exact h1
    | some oo =>
      rw [if_pos rfl]
      rw [updNode_doneEq _ oo unclickF (fun _ => rfl) (fun _ => rfl)]
      exact h1

theorem mem_revealPre_rev (d : Doc) (w : Nat) (o : Option Nat) :
    ∀ n' ∈ revealPre d w o, ∃ m ∈ d, StaticEq m n' := by
  have h1 : ∀ n' ∈ revealDescs d w, ∃ m ∈ d, StaticEq m n' := by
    intro n' hn'
    unfold revealDescs at hn'
    rcases mem_foldl_updNode_rev unhideF
      (fun n => ⟨rfl, rfl, rfl, rfl, rfl, rfl, rfl, rfl, rfl⟩) _ _ n' hn' with
      ⟨m1, hm1, hs1⟩
    rcases mem_updNode_rev d w unhideF
      (fun n => ⟨rfl, rfl, rfl, rfl, rfl, rfl, rfl, rfl, rfl⟩) m1 hm1 with ⟨m, hm, hs⟩
    exact ⟨m, hm, StaticEq.comp hs hs1⟩
  unfold revealPre
  cases o with
  | none => exact h1
  | some oo =>
    intro n' hn'
    rcases mem_updNode_rev _ oo unmarkOwnerF
      (fun n => ⟨rfl, rfl, rfl, rfl, rfl, rfl, rfl, rfl, rfl⟩) n' hn' with ⟨m1, hm1, hs1⟩
    rcases h1 m1 hm1 with ⟨m, hm, hs⟩
    exact ⟨m, hm, StaticEq.comp hs hs1⟩

theorem mem_reveal_rev (d : Doc) (w : Nat) (o : Option Nat) (cont : Nat) (pk : Bool) :
    ∀ n' ∈ reveal d w o cont pk, (∃ m ∈ d, StaticEq m n') ∧ n'.id ≠ cont := by
  have h1 : ∀ n' ∈ (revealPre d w o).filter (fun n => n.id ≠ cont),
      (∃ m ∈ d, StaticEq m n') ∧ n'.id ≠ cont := by
    intro n' hn'
    have hmem := (List.mem_filter.mp hn').1
    have hne : n'.id ≠ cont := by
      have := (List.mem_filter.mp hn').2
      simpa using this
    exact ⟨mem_revealPre_rev d w o n' hmem, hne⟩
  unfold reveal
  cases pk with
  | false => exact h1
  | true =>
    cases o with
    | none => exact h1
    | some oo =>
      intro n' hn'
      rcases mem_updNode_rev _ oo unclickF
        (fun n => ⟨rfl, rfl, rfl, rfl, rfl, rfl, rfl, rfl, rfl⟩) n' hn' with
        ⟨m1, hm1, hs1⟩
      rcases h1 m1 hm1 with ⟨⟨m, hm, hs⟩, hne⟩
      exact ⟨⟨m, hm, StaticEq.comp hs hs1⟩, by rw [← hs1.idE]; exact hne⟩

/- ## C10: reveal keeps processed markers; a rescan of the subtree is a no-op -/

theorem candidates_reveal_subset {d1 : Doc} (hw1 : WF d1) {w : Nat} {o : Option Nat}
    {cont : Nat} {pk : Bool} (H1 : ∀ n ∈ d1, n.parent ≠ some cont) {c : Nat} :
    ∀ el ∈ candidatesOf (reveal d1 w o cont pk) c,
      el ∈ candidatesOf d1 c ∧ el ≠ cont := by
  intro el hel
  have hag : Agrees d1 (reveal d1 w o cont pk) (fun i => i = cont) :=
    ⟨hw1.2, fun i _ hbi => reveal_optSE d1 w o cont pk i hbi,
     fun n hn q hq hqc => H1 n hn (by rw [hqc] at hq; exact hq)⟩
  unfold candidatesOf at hel ⊢
  rcases List.mem_append.mp hel with h1 | h2
  · cases hlr : lookupN (reveal d1 w o cont pk) c with
    | none => rw [hlr] at h1; cases h1
    | some cn' =>
      rw [hlr] at h1
      dsimp only at h1
      by_cases hcand : isCandidate cn'
      · rw [if_pos hcand] at h1
        rw [List.mem_singleton] at h1
        subst h1
        have hmm := lookupN_mem_id hlr
        have hne : el ≠ cont := by
          rcases mem_reveal_rev d1 w o cont pk cn' hmm.1 with ⟨_, hne2⟩
          rw [← hmm.2]
          exact hne2
        have hse := reveal_optSE d1 w o cont pk el hne
        cases hl1 : lookupN d1 el with
        | none => rw [hl1, hlr] at hse; exact hse.elim
        | some cn0 =>
          rw [hl1, hlr] at hse
          refine ⟨List.mem_append.mpr (Or.inl ?_), hne⟩
          dsimp only
          rw [if_pos (by rw [isCandidate_static hse]; exact hcand)]
          simp
      · rw [if_neg hcand] at h1
        cases h1
  · rcases List.mem_map.mp h2 with ⟨n', hn', rfl⟩
    have hmemf := List.mem_filter.mp hn'
    have hnprop : isCandidate n' = true ∧
        descOf (reveal d1 w o cont pk) c n' = true := by
      simpa using hmemf.2
    rcases mem_reveal_rev d1 w o cont pk n' hmemf.1 with ⟨⟨m, hm, hsm⟩, hne⟩
    have hdesc : descOf d1 c m = true := by
      rw [← descOf_agree hag hm hsm]
      exact hnprop.2
    refine ⟨List.mem_append.mpr (Or.inr ?_), hne⟩
    refine List.mem_map.mpr ⟨m, ?_, hsm.idE⟩
    refine List.mem_filter.mpr ⟨hm, ?_⟩
    rw [Bool.and_eq_true]
    exact ⟨by rw [isCandidate_static hsm]; exact hnprop.1, hdesc⟩

/-- C10: the reveal click handler never clears the processed marker of
any surviving element (it only removes the placeholder, restores
displays, clears the owner-processed marker, and in picker mode the
click-blocked marker and pointer suppression); consequently an
incremental rescan of the same unchanged subtree right after the reveal
is a complete no-op — no placeholder is re-created until a full rescan()
or stop() clears the processed markers. -/
theorem C10_reveal_keeps_processed_and_rescan_noop :
    ∀ (s : Settings) (d : Doc) (c : Nat) (d1 : Doc) (w : Nat) (o : Option Nat)
      (cont : Nat) (pk : Bool),
      WF d → processContainer s d c = some d1 →
      (∀ n ∈ d1, n.parent ≠ some cont) →
      (∀ j, j ≠ cont →
        (lookupN (reveal d1 w o cont pk) j).map (fun m => m.btgDone) =
          (lookupN d1 j).map (fun m => m.btgDone)) ∧
      processContainer s (reveal d1 w o cont pk) c =
        some (reveal d1 w o cont pk) := by
  intro s d c d1 w o cont pk hwf hscan H1
  refine ⟨fun j hj => reveal_doneEq d1 w o cont pk j hj, ?_⟩
  unfold processContainer at hscan
  cases hlc : lookupN d c with
  | none =>
    rw [hlc] at hscan
    cases hscan
    unfold processContainer
    cases hlr : lookupN (reveal d w o cont pk) c with
    | none => rfl
    | some n' =>
      have hmm := lookupN_mem_id hlr
      rcases (mem_reveal_rev d w o cont pk n' hmm.1).1 with ⟨m, hm, hs⟩
      have hmc : (m.id == c) = true := by
        simp [hs.idE, hmm.2]
      unfold lookupN at hlc
      have := List.find?_eq_none.mp hlc m hm
      simp [hmc] at this
  | some cn =>
    rw [hlc] at hscan
    dsimp only at hscan
    have hc_le : c ≤ maxId d := by
      have h1 := (lookupN_mem_id hlc).2
      have h2 := le_maxId (lookupN_mem_id hlc).1
      omega
    rcases fold_main (candidatesOf d c) d hwf candidates_le d1 hscan with
      ⟨hx, hmono, hw1, hs⟩
    have hcand_eq : candidatesOf d1 c = candidatesOf d c :=
      candidates_ext hwf hx hc_le
    have hag : Agrees d1 (reveal d1 w o cont pk) (fun i => i = cont) :=
      ⟨hw1.2, fun i _ hbi => reveal_optSE d1 w o cont pk i hbi,
       fun n hn q hq hqc => H1 n hn (by rw [hqc] at hq; exact hq)⟩
    unfold processContainer
    cases hlr : lookupN (reveal d1 w o cont pk) c with
    | none => rfl
    | some cr =>
      dsimp only
      apply fold_skip
      intro el hel
      rcases candidates_reveal_subset hw1 H1 el hel with ⟨hel1, hne⟩
      have hel_le : el ≤ maxId d1 := candidates_le el hel1
      have hskip1 : skipsB s d1 el = true := by
        rw [hcand_eq] at hel1
        exact hs el hel1
      refine skipsB_agree hag hel_le hne ?_ hskip1
      intro hdd
      rw [reveal_doneEq d1 w o cont pk el hne]
      exact hdd

/-- Witness for C10: revealing the message scenario's placeholder (embed
id 4, wrapper and owner id 2) and rescanning the same subtree changes
nothing. -/
theorem C10_reveal_keeps_processed_and_rescan_noop_witness :
    processContainer defS (reveal dMsgScanned 2 (some 2) 4 false) 0 =
      some (reveal dMsgScanned 2 (some 2) 4 false) :=
  (C10_reveal_keeps_processed_and_rescan_noop defS dMsg 0 dMsgScanned 2 (some 2) 4
    false (WF_check (by decide) (by decide)) (by decide) (by decide)).2

end BTG
